import Mathlib

/-!
Shallow embedding of the security assignment/lease engine of the
WALLMART_SECURITY repository.

The repository ships several variants of the same Express/MongoDB server:
`src/unnamed/part_000` is the complete standalone security server
(least-loaded selection, duplicate-assignment check, reassignment on
expiry), while `src/server.js` concatenates three further variants whose
third, full one uses round-robin selection and no duplicate-assignment
check.  Namespace `P0` below embeds `part_000`; namespace `SC` embeds the
full `server.js` variant (its `/api/security/assign`, confirm route,
`reassignOrder`, `updateSecurityStats` and `cleanupExpiredAssignments`).

MongoDB collections are modelled as lists kept in insertion order:
`findOne` is `List.find?`, `insertOne` appends, `updateOne` rewrites the
first matching document.  Timestamps are naturals counting milliseconds
(`Date.now()`); `Date` subtraction on naturals truncates at zero exactly
where the JavaScript comparison against a negative number is vacuous.
-/

/-- Status of a security assignment lease: the `status` field of a
`security_assignments` document. -/
inductive LeaseSt
  | assigned
  | confirmed
  | expired
deriving DecidableEq, Repr

/-- A `security_watchmen` document (the fields the engine reads). -/
structure Watchman where
  name : String
  nameLower : String
  contact : String
  email : String
  securityId : String
  active : Bool
deriving DecidableEq, Repr

/-- A `security_assignments` document.  `lid` stands for the Mongo `_id`;
fresh ids are drawn from the state's counter. -/
structure Lease where
  lid : Nat
  orderId : String
  securityId : String
  status : LeaseSt
  assignedAt : Nat
  expiredAt : Option Nat
  confirmedAt : Option Nat
  completionTime : Option Nat
  reassignedFrom : Option String
deriving DecidableEq, Repr

/-- The counters of a `security_stats` document. -/
structure Stat where
  totalAssigned : Nat
  totalConfirmed : Nat
  totalExpired : Nat
deriving DecidableEq, Repr

/-- An `orders` document (the fields the engine reads and writes). -/
structure Order where
  orderId : String
  status : String
deriving DecidableEq, Repr

/-- The database state shared by all routes. -/
structure St where
  watchmen : List Watchman
  leases : List Lease
  stats : List (String × Stat)
  orders : List Order
  nextId : Nat
deriving DecidableEq, Repr

/-- The valid security ids, `['1','2','3','4','5']` in the source. -/
def validIds : List String := ["1", "2", "3", "4", "5"]

/-- Reading a stats document: `findOne({securityId})`, with the zero
counters a fresh upserted document starts from. -/
def getStat (l : List (String × Stat)) (sid : String) : Stat :=
  ((l.find? (fun p => p.1 == sid)).map Prod.snd).getD ⟨0, 0, 0⟩

/-- `updateOne` on the stats collection: rewrite the first document with
the given `securityId`. -/
def updateFirstStat (l : List (String × Stat)) (sid : String) (f : Stat → Stat) :
    List (String × Stat) :=
  match l with
  | [] => []
  | p :: rest =>
    if p.1 == sid then (p.1, f p.2) :: rest else p :: updateFirstStat rest sid f

/-- `updateOne(..., { upsert: true })` on the stats collection: update the
first matching document, or append a fresh one built from zero counters. -/
def upsertStat (l : List (String × Stat)) (sid : String) (f : Stat → Stat) :
    List (String × Stat) :=
  if l.any (fun p => p.1 == sid) then updateFirstStat l sid f
  else l ++ [(sid, f ⟨0, 0, 0⟩)]

/-- The `action` argument of `updateSecurityStats`. -/
inductive StatAction
  | assignedA
  | confirmedA
  | expiredA
deriving DecidableEq, Repr

/-- The `$inc` chosen by `updateSecurityStats`'s `switch (action)`. -/
def applyAction : StatAction → Stat → Stat
  | .assignedA, s => { s with totalAssigned := s.totalAssigned + 1 }
  | .confirmedA, s => { s with totalConfirmed := s.totalConfirmed + 1 }
  | .expiredA, s => { s with totalExpired := s.totalExpired + 1 }

/-- `updateSecurityStats(securityId, action)`: `$inc` one counter with
upsert.  The helper is identical in `part_000` and `server.js`. -/
def updateSecurityStats (st : St) (sid : String) (act : StatAction) : St :=
  { st with stats := upsertStat st.stats sid (applyAction act) }

/-- `updateOne({_id})` on the assignments collection: rewrite the first
document with the given id. -/
def updateLease (l : List Lease) (lid : Nat) (g : Lease → Lease) : List Lease :=
  match l with
  | [] => []
  | a :: rest =>
    if a.lid == lid then g a :: rest else a :: updateLease rest lid g

/-- `updateOne({orderId})` on the orders collection. -/
def updateOrder (l : List Order) (oid : String) (g : Order → Order) : List Order :=
  match l with
  | [] => []
  | o :: rest =>
    if o.orderId == oid then g o :: rest else o :: updateOrder rest oid g

/-- Status of the first lease document carrying the given `_id`. -/
def leaseStatus (l : List Lease) (lid : Nat) : Option LeaseSt :=
  (l.find? (fun a => a.lid == lid)).map (fun a => a.status)

/-- The `$set {status: 'expired', expiredAt}` update applied to one lease. -/
def expireLease (l : List Lease) (i : Nat) (now : Nat) : List Lease :=
  updateLease l i (fun x => { x with status := .expired, expiredAt := some now })

/-- The `$set {status: 'confirmed', confirmedAt, completionTime}` update
applied to one lease. -/
def confirmLease (l : List Lease) (i : Nat) (now ct : Nat) : List Lease :=
  updateLease l i
    (fun x => { x with status := .confirmed, confirmedAt := some now, completionTime := some ct })

/-- The `$set {status: 'verified', ...}` update the confirm route applies
to the order document. -/
def verifyOrder (l : List Order) (oid : String) : List Order :=
  updateOrder l oid (fun o => { o with status := "verified" })

/-- `countDocuments({securityId, status: 'assigned', assignedAt: {$gte: now - 5*60*1000}})`:
the workload used by the least-loaded selection. -/
def pendingCount (leases : List Lease) (sid : String) (now : Nat) : Nat :=
  (leases.filter (fun a =>
    a.securityId == sid && a.status == LeaseSt.assigned
      && now - 300000 ≤ a.assignedAt)).length

/-- First element attaining the minimal key: the head of the stable
ascending `Array.sort((a, b) => key(a) - key(b))` the source applies to
workloads. -/
def leastBy (key : α → Nat) : List α → Option α
  | [] => none
  | x :: xs =>
    match leastBy key xs with
    | none => some x
    | some y => if key x ≤ key y then some x else some y

/-- JavaScript `String.prototype.trim`. -/
def jsTrim (s : String) : String :=
  ⟨((s.data.dropWhile Char.isWhitespace).reverse.dropWhile Char.isWhitespace).reverse⟩

/-- JavaScript `String.prototype.toLowerCase`. -/
def jsLower (s : String) : String :=
  ⟨s.data.map Char.toLower⟩

/-- The `name.trim().toLowerCase()` normalisation the server applies to
watchman names. -/
def normName (s : String) : String := jsLower (jsTrim s)

/-- `parseInt` as applied to the one-digit security ids `"1"`..`"5"` the
system allocates (anything else maps to 0, which never collides with a
valid id's value). -/
def parseId (s : String) : Nat :=
  match s.data with
  | [c] => if c.isDigit then c.toNat - 48 else 0
  | _ => 0

/-- Number of `assigned`-status leases of one order. -/
def countOrderAssigned (st : St) (oid : String) : Nat :=
  (st.leases.filter (fun a => a.orderId == oid && a.status == LeaseSt.assigned)).length

/-- Number of `assigned`-status leases held by one worker. -/
def countSidAssigned (st : St) (sid : String) : Nat :=
  (st.leases.filter (fun a => a.securityId == sid && a.status == LeaseSt.assigned)).length

/-- Sum of the three counters of one stats document. -/
def statTotal (s : Stat) : Nat :=
  s.totalAssigned + s.totalConfirmed + s.totalExpired

/-- Sum of all counters across the whole stats collection: the quantity
that must move by exactly one per successful increment. -/
def statSum (l : List (String × Stat)) : Nat :=
  (l.map (fun p => statTotal p.2)).sum

/-- Whether some active watchman other than `sid` exists: exactly when the
reassignment procedure of `part_000` finds a candidate. -/
def hasOther (st : St) (sid : String) : Bool :=
  st.watchmen.any (fun w => w.active && !(w.securityId == sid))

/-- `Math.round((totalConfirmed / totalAssigned) * 100)` on exact
rationals, for `a > 0`: round-half-up of `100*c/a`, i.e.
`⌊100*c/a + 1/2⌋ = (200*c + a) / (2*a)` in natural division. -/
def effRound (c a : Nat) : Nat := (200 * c + a) / (2 * a)

/-- The snapshot returned by `GET /api/security/stats/:securityId`. -/
structure StatsView where
  totalAssigned : Nat
  totalConfirmed : Nat
  totalExpired : Nat
  totalPending : Nat
  efficiency : Nat
deriving DecidableEq, Repr

/-- Result of `POST /api/security/assign`. -/
inductive AssignRes
  | ok (sid : String)
  | badRequest
  | orderNotFound
  | alreadyAssigned
  | noWorkers
deriving DecidableEq, Repr

/-- Result of `POST /api/security/confirm/:orderId`. -/
inductive ConfirmRes
  | ok (completionTime : Nat)
  | badRequest
  | invalidId
  | workerNotFound
  | identityMismatch
  | leaseNotFound
  | leaseExpired
deriving DecidableEq, Repr

/-- Result of `POST /api/security/register`. -/
inductive RegisterRes
  | ok (sid : String)
  | badRequest
  | nameExists
  | maxReached
deriving DecidableEq, Repr

namespace P0

/-- The `for (let i = 1; i <= 5; i++)` search of `part_000`'s register
route: first id in 1..5 whose numeric value is unused. -/
def freeId (used : List Nat) : Option String :=
  ([1, 2, 3, 4, 5].find? (fun i => !(used.contains i))).map toString

/-- `POST /api/security/register` of `part_000`: validate, reject
duplicate names, allocate the lowest free id, create the watchman and its
zeroed stats document. -/
def register (st : St) (name contact email : String) : St × RegisterRes :=
  if name = "" ∨ contact = "" ∨ name.length < 2 ∨ contact.length < 10 then
    (st, .badRequest)
  else if st.watchmen.any (fun w => w.name == normName name) then
    (st, .nameExists)
  else
    match freeId (st.watchmen.map (fun w => parseId w.securityId)) with
    | none => (st, .maxReached)
    | some sid =>
      let w : Watchman :=
        { name := jsTrim name, nameLower := normName name, contact := jsTrim contact,
          email := jsTrim email, securityId := sid, active := true }
      ({ st with watchmen := st.watchmen ++ [w],
                 stats := st.stats ++ [(sid, ⟨0, 0, 0⟩)] }, .ok sid)

/-- `findAvailableSecurityId()`: least-loaded active watchman by pending
count (stable sort, head). -/
def findAvailableSecurityId (st : St) (now : Nat) : Option String :=
  let active := st.watchmen.filter (fun w => w.active)
  if active.isEmpty then none
  else
    (leastBy (fun w => pendingCount st.leases w.securityId now) active).map
      (fun w => w.securityId)

/-- `reassignOrder(orderId, excludeSecurityId)` of `part_000`: pick the
least-loaded active watchman other than the excluded one; on success
create the replacement lease and bump `totalAssigned` of the new worker
and `totalExpired` of the excluded one; when nobody is available return
with no change. -/
def reassignOrder (st : St) (orderId excludeSid : String) (now : Nat) : St :=
  let avail := st.watchmen.filter (fun w => w.active && !(w.securityId == excludeSid))
  match leastBy (fun w => pendingCount st.leases w.securityId now) avail with
  | none => st
  | some w =>
    let lease : Lease :=
      { lid := st.nextId, orderId := orderId, securityId := w.securityId,
        status := .assigned, assignedAt := now, expiredAt := none,
        confirmedAt := none, completionTime := none,
        reassignedFrom := some excludeSid }
    let st1 := { st with leases := st.leases ++ [lease], nextId := st.nextId + 1 }
    let st2 := updateSecurityStats st1 w.securityId .assignedA
    updateSecurityStats st2 excludeSid .expiredA

/-- `POST /api/security/assign` of `part_000`: the order must exist with
status `completed`, must not already carry an `assigned` or `confirmed`
lease, and the least-loaded active watchman receives a fresh lease plus a
`totalAssigned` bump. -/
def assign (st : St) (orderId : String) (now : Nat) : St × AssignRes :=
  if orderId = "" then (st, .badRequest)
  else
    match st.orders.find? (fun o => o.orderId == orderId && o.status == "completed") with
    | none => (st, .orderNotFound)
    | some _ =>
      if st.leases.any (fun a => a.orderId == orderId
          && (a.status == LeaseSt.assigned || a.status == LeaseSt.confirmed)) then
        (st, .alreadyAssigned)
      else
        match findAvailableSecurityId st now with
        | none => (st, .noWorkers)
        | some sid =>
          let lease : Lease :=
            { lid := st.nextId, orderId := orderId, securityId := sid,
              status := .assigned, assignedAt := now, expiredAt := none,
              confirmedAt := none, completionTime := none, reassignedFrom := none }
          let st1 := { st with leases := st.leases ++ [lease], nextId := st.nextId + 1 }
          (updateSecurityStats st1 sid .assignedA, .ok sid)

/-- The body shared by the sweeper and the late-confirm path: mark the
lease expired, then run `reassignOrder(orderId, securityId)` for it. -/
def expireAndReassign (st : St) (a : Lease) (now : Nat) : St :=
  let ls := updateLease st.leases a.lid
    (fun l => { l with status := .expired, expiredAt := some now })
  reassignOrder { st with leases := ls } a.orderId a.securityId now

/-- `POST /api/security/confirm/:orderId` of `part_000`. -/
def confirm (st : St) (orderId sid claimedName : String) (now : Nat) : St × ConfirmRes :=
  if orderId = "" ∨ sid = "" ∨ claimedName = "" then (st, .badRequest)
  else if !(validIds.contains sid) then (st, .invalidId)
  else
    match st.watchmen.find? (fun w => w.securityId == sid && w.active) with
    | none => (st, .workerNotFound)
    | some w =>
      if !(w.nameLower == normName claimedName) then (st, .identityMismatch)
      else
        match st.leases.find? (fun a => a.orderId == orderId
            && a.securityId == sid && a.status == LeaseSt.assigned) with
        | none => (st, .leaseNotFound)
        | some a =>
          if 300000 < now - a.assignedAt then
            (expireAndReassign st a now, .leaseExpired)
          else
            let ct := (now - a.assignedAt) / 1000
            let ls := confirmLease st.leases a.lid now ct
            let os := verifyOrder st.orders orderId
            (updateSecurityStats { st with leases := ls, orders := os } sid .confirmedA, .ok ct)

/-- One iteration of the background cleanup loop of `part_000`. -/
def sweepItem (st : St) (a : Lease) (now : Nat) : St :=
  expireAndReassign st a now

/-- The `setInterval` cleanup job of `part_000`: select the
`assigned`-status leases older than five minutes, then expire and
reassign each in turn. -/
def sweep (st : St) (now : Nat) : St :=
  (st.leases.filter (fun a =>
      a.status == LeaseSt.assigned && a.assignedAt < now - 300000)).foldl
    (fun s a => sweepItem s a now) st

/-- `GET /api/security/stats/:securityId` of `part_000`: the returned
snapshot (stored counters, live pending count, recomputed efficiency). -/
def statsFor (st : St) (sid : String) (now : Nat) : Option StatsView :=
  if !(validIds.contains sid) then none
  else
    match st.watchmen.find? (fun w => w.securityId == sid && w.active) with
    | none => none
    | some _ =>
      let s := getStat st.stats sid
      some { totalAssigned := s.totalAssigned, totalConfirmed := s.totalConfirmed,
             totalExpired := s.totalExpired,
             totalPending := pendingCount st.leases sid now,
             efficiency := if 0 < s.totalAssigned then
               effRound s.totalConfirmed s.totalAssigned else 0 }

/-- The empty database the server starts from. -/
def initSt : St := ⟨[], [], [], [], 0⟩

/-- An external worker-directory update: flip one watchman's activity
flag (the engine itself never creates or deletes watchmen). -/
def setActiveFn (sid : String) (b : Bool) (l : List Watchman) : List Watchman :=
  l.map (fun w => if w.securityId == sid then { w with active := b } else w)

/-- One externally triggered transition of the `part_000` server: an
order appearing from the shopping system, a watchman's activity flag
flipping in the directory, or one of the four engine operations. -/
inductive Step : St → St → Prop
  | addOrder (st : St) (o : Order) :
      Step st { st with orders := st.orders ++ [o] }
  | setActive (st : St) (sid : String) (b : Bool) :
      Step st { st with watchmen := setActiveFn sid b st.watchmen }
  | register (st : St) (name contact email : String) :
      Step st (register st name contact email).1
  | assign (st : St) (orderId : String) (now : Nat) :
      Step st (assign st orderId now).1
  | confirm (st : St) (orderId sid claimedName : String) (now : Nat) :
      Step st (confirm st orderId sid claimedName now).1
  | sweep (st : St) (now : Nat) :
      Step st (sweep st now)

/-- States reachable from the fresh database by any operation sequence. -/
inductive Reachable : St → Prop
  | init : Reachable initSt
  | step {s s' : St} : Reachable s → Step s s' → Reachable s'

end P0

/-- Code-unit lexicographic order on character lists, as MongoDB's
ascending sort compares the string `securityId` values. -/
def charListLt : List Char → List Char → Bool
  | [], [] => false
  | [], _ :: _ => true
  | _ :: _, [] => false
  | c :: cs, d :: ds =>
    if c.toNat < d.toNat then true
    else if d.toNat < c.toNat then false
    else charListLt cs ds

/-- String comparison used by `sort({ securityId: 1 })`. -/
def strLt (a b : String) : Bool := charListLt a.data b.data

namespace SC

/-- Insert a watchman into a list sorted ascending by `securityId`. -/
def insertBySid (w : Watchman) : List Watchman → List Watchman
  | [] => [w]
  | x :: xs =>
    if strLt x.securityId w.securityId then x :: insertBySid w xs
    else w :: x :: xs

/-- `find({status:'active'}).sort({securityId: 1})` on the watchmen. -/
def sortBySid (l : List Watchman) : List Watchman := l.foldr insertBySid []

/-- `find({}).sort({assignedAt: -1}).limit(1)`: the most recent
assignment document (later-inserted documents win ties). -/
def latestLease : List Lease → Option Lease
  | [] => none
  | a :: rest =>
    match latestLease rest with
    | none => some a
    | some b => if b.assignedAt < a.assignedAt then some a else some b

/-- `reassignOrder(orderId, currentSecurityId)` of the full `server.js`
variant: take the first active watchman other than the current one,
insert the replacement lease, and bump only the new worker's
`totalAssigned`. -/
def reassignOrder (st : St) (orderId currentSid : String) (now : Nat) : St :=
  match (st.watchmen.filter (fun w => w.active && !(w.securityId == currentSid))).head? with
  | none => st
  | some w =>
    let lease : Lease :=
      { lid := st.nextId, orderId := orderId, securityId := w.securityId,
        status := .assigned, assignedAt := now, expiredAt := none,
        confirmedAt := none, completionTime := none,
        reassignedFrom := some currentSid }
    let st1 := { st with leases := st.leases ++ [lease], nextId := st.nextId + 1 }
    updateSecurityStats st1 w.securityId .assignedA

/-- `POST /api/security/assign` of the full `server.js` variant: simple
round-robin over the active watchmen sorted by id, starting after the
most recently assigned worker; no check for an existing lease on the
order. -/
def assign (st : St) (orderId : String) (now : Nat) : St × AssignRes :=
  if orderId = "" then (st, .badRequest)
  else
    let ws := sortBySid (st.watchmen.filter (fun w => w.active))
    if ws.isEmpty then (st, .noWorkers)
    else
      let idx :=
        match latestLease st.leases with
        | none => 0
        | some last =>
          match ws.findIdx? (fun w => w.securityId == last.securityId) with
          | none => 0
          | some i => (i + 1) % ws.length
      match ws.get? idx with
      | none => (st, .noWorkers)
      | some w =>
        let lease : Lease :=
          { lid := st.nextId, orderId := orderId, securityId := w.securityId,
            status := .assigned, assignedAt := now, expiredAt := none,
            confirmedAt := none, completionTime := none, reassignedFrom := none }
        let st1 := { st with leases := st.leases ++ [lease], nextId := st.nextId + 1 }
        (updateSecurityStats st1 w.securityId .assignedA, .ok w.securityId)

/-- `POST /api/security/confirm/:orderId` of the full `server.js`
variant.  Its single 403 for an unknown watchman or a name mismatch is
kept as two result values distinguished only for readability; on the
late path it expires the lease, reassigns, and bumps `totalExpired`
unconditionally. -/
def confirm (st : St) (orderId sid claimedName : String) (now : Nat) : St × ConfirmRes :=
  if orderId = "" ∨ sid = "" ∨ claimedName = "" then (st, .badRequest)
  else
    match st.watchmen.find? (fun w => w.securityId == sid && w.active) with
    | none => (st, .workerNotFound)
    | some w =>
      if !(w.nameLower == normName claimedName) then (st, .identityMismatch)
      else
        match st.leases.find? (fun a => a.orderId == orderId
            && a.securityId == sid && a.status == LeaseSt.assigned) with
        | none => (st, .leaseNotFound)
        | some a =>
          if 300000 < now - a.assignedAt then
            let ls := expireLease st.leases a.lid now
            let st1 := reassignOrder { st with leases := ls } orderId sid now
            (updateSecurityStats st1 sid .expiredA, .leaseExpired)
          else
            let ct := (now - a.assignedAt) / 1000
            let ls := confirmLease st.leases a.lid now ct
            let os := verifyOrder st.orders orderId
            (updateSecurityStats { st with leases := ls, orders := os } sid .confirmedA, .ok ct)

/-- One iteration of `cleanupExpiredAssignments`: expire the lease, bump
the owner's `totalExpired`, then reassign the order away from them. -/
def cleanupItem (st : St) (a : Lease) (now : Nat) : St :=
  let ls := expireLease st.leases a.lid now
  let st1 := updateSecurityStats { st with leases := ls } a.securityId .expiredA
  reassignOrder st1 a.orderId a.securityId now

/-- `cleanupExpiredAssignments()` of the full `server.js` variant. -/
def cleanup (st : St) (now : Nat) : St :=
  (st.leases.filter (fun a =>
      a.status == LeaseSt.assigned && a.assignedAt < now - 300000)).foldl
    (fun s a => cleanupItem s a now) st

end SC

/-- The `$set {status: 'expired'}` of the first `server.js` variant's
late-confirm path (line 177): unlike the other variants, no `expiredAt`
is written. -/
def expireLeaseOnly (l : List Lease) (i : Nat) : List Lease :=
  updateLease l i (fun x => { x with status := .expired })

namespace SA

/-- Result of the first `server.js` variant's confirm route; its single
403 `Watchman verification failed` covers both an unknown watchman and a
name mismatch. -/
inductive ConfirmResA
  | ok (completionTime : Nat)
  | missingFields
  | verifyFailed
  | assignmentNotFound
  | expired
deriving DecidableEq, Repr

/-- `POST /api/security/confirm/:orderId` of the first `server.js`
variant (lines 161-215).  The TTL check is
`Math.floor((now - assignedAt) / 1000) > 300`; on the late path the
route only marks the lease `expired` and fails — no reassignment and no
counter change (this variant's stats documents have no `totalExpired`
field at all).  The happy path's work-log insert touches a collection
nothing embedded here reads and is not tracked. -/
def confirm (st : St) (orderId sid claimedName : String) (now : Nat) : St × ConfirmResA :=
  if orderId = "" ∨ sid = "" ∨ claimedName = "" then (st, .missingFields)
  else
    match st.watchmen.find? (fun w => w.securityId == sid && w.active) with
    | none => (st, .verifyFailed)
    | some w =>
      if !(w.nameLower == normName claimedName) then (st, .verifyFailed)
      else
        match st.leases.find? (fun a => a.orderId == orderId
            && a.securityId == sid && a.status == LeaseSt.assigned) with
        | none => (st, .assignmentNotFound)
        | some a =>
          if 300 < (now - a.assignedAt) / 1000 then
            ({ st with leases := expireLeaseOnly st.leases a.lid }, .expired)
          else
            let ct := (now - a.assignedAt) / 1000
            let ls := confirmLease st.leases a.lid now ct
            let os := verifyOrder st.orders orderId
            (updateSecurityStats { st with leases := ls, orders := os } sid .confirmedA,
              .ok ct)

/-- One iteration of the first variant's cleanup loop (lines 380-385):
`$set {status: 'expired', expiredAt}` on the stale lease; nothing else. -/
def cleanupItem (st : St) (a : Lease) (now : Nat) : St :=
  { st with leases := expireLease st.leases a.lid now }

/-- The `setInterval` cleanup of the first `server.js` variant (lines
373-390): select the `assigned`-status leases older than five minutes
and mark each `expired`; no counter change and no reassignment. -/
def cleanup (st : St) (now : Nat) : St :=
  (st.leases.filter (fun a =>
      a.status == LeaseSt.assigned && a.assignedAt < now - 300000)).foldl
    (fun s a => cleanupItem s a now) st

end SA


section Helpers

theorem leastBy_mem {α : Type} (key : α → Nat) (l : List α) (x : α)
    (h : leastBy key l = some x) : x ∈ l := by
  induction l with
  | nil => simp [leastBy] at h
  | cons y ys ih =>
    simp only [leastBy] at h
    cases hy : leastBy key ys with
    | none => rw [hy] at h; simp at h; simp [h]
    | some z =>
      rw [hy] at h
      by_cases hk : key y ≤ key z
      · simp [hk] at h; simp [h]
      · simp [hk] at h; exact List.mem_cons_of_mem _ (ih (h ▸ hy))

theorem leastBy_eq_none {α : Type} (key : α → Nat) (l : List α) :
    leastBy key l = none ↔ l = [] := by
  induction l with
  | nil => simp [leastBy]
  | cons y ys ih =>
    simp only [leastBy]
    cases hy : leastBy key ys with
    | none => simp
    | some z => by_cases hk : key y ≤ key z <;> simp [hk]

theorem getStat_updateFirst_self (l : List (String × Stat)) (sid : String) (f : Stat → Stat)
    (h : l.any (fun p => p.1 == sid) = true) :
    getStat (updateFirstStat l sid f) sid = f (getStat l sid) := by
  induction l with
  | nil => simp at h
  | cons p rest ih =>
    cases hb : (p.1 == sid) with
    | true =>
      simp only [updateFirstStat, hb, if_true, getStat, List.find?_cons, Option.map]
      simp
    | false =>
      simp only [List.any_cons, hb, Bool.false_or] at h
      simp only [updateFirstStat, hb, Bool.false_eq_true, if_false]
      simpa only [getStat, List.find?_cons, hb] using ih h

theorem getStat_updateFirst_other (l : List (String × Stat)) (sid sid' : String)
    (f : Stat → Stat) (h : sid' ≠ sid) :
    getStat (updateFirstStat l sid f) sid' = getStat l sid' := by
  induction l with
  | nil => simp [updateFirstStat]
  | cons p rest ih =>
    cases hb : (p.1 == sid) with
    | true =>
      have hb' : (p.1 == sid') = false := by
        rw [beq_iff_eq] at hb
        rw [beq_eq_false_iff_ne]
        rw [hb]
        exact fun e => h e.symm
      simp only [updateFirstStat, hb, if_true, getStat, List.find?_cons, hb']
    | false =>
      simp only [updateFirstStat, hb, Bool.false_eq_true, if_false]
      cases hc : (p.1 == sid') with
      | true => simp only [getStat, List.find?_cons, hc, Option.map, Option.getD]
      | false => simpa only [getStat, List.find?_cons, hc] using ih

theorem find?_eq_none_of_any_eq_false (l : List (String × Stat)) (sid : String)
    (h : l.any (fun p => p.1 == sid) = false) :
    l.find? (fun p => p.1 == sid) = none := by
  rw [List.find?_eq_none]
  intro p hp
  have := List.any_eq_false.mp h p hp
  simpa using this

theorem getStat_upsert_self (l : List (String × Stat)) (sid : String) (f : Stat → Stat) :
    getStat (upsertStat l sid f) sid = f (getStat l sid) := by
  unfold upsertStat
  cases ha : l.any (fun p => p.1 == sid) with
  | true => simpa only [if_true] using getStat_updateFirst_self l sid f ha
  | false =>
    simp only [Bool.false_eq_true, if_false]
    have h1 := find?_eq_none_of_any_eq_false l sid ha
    simp [getStat, List.find?_append, h1]

theorem getStat_upsert_other (l : List (String × Stat)) (sid sid' : String)
    (f : Stat → Stat) (h : sid' ≠ sid) :
    getStat (upsertStat l sid f) sid' = getStat l sid' := by
  unfold upsertStat
  cases ha : l.any (fun p => p.1 == sid) with
  | true => simpa only [if_true] using getStat_updateFirst_other l sid sid' f h
  | false =>
    have hb : ((sid, f ⟨0, 0, 0⟩).1 == sid') = false := by
      simpa using fun e => h e.symm
    simp only [Bool.false_eq_true, if_false, getStat, List.find?_append]
    cases hf : l.find? (fun p => p.1 == sid') with
    | none => simp [List.find?_cons, hb]
    | some q => simp

end Helpers

section Helpers2

theorem statTotal_applyAction (act : StatAction) (s : Stat) :
    statTotal (applyAction act s) = statTotal s + 1 := by
  cases act <;> simp [applyAction, statTotal] <;> omega

theorem statSum_updateFirst (l : List (String × Stat)) (sid : String) (act : StatAction)
    (h : l.any (fun p => p.1 == sid) = true) :
    statSum (updateFirstStat l sid (applyAction act)) = statSum l + 1 := by
  induction l with
  | nil => simp at h
  | cons p rest ih =>
    cases hb : (p.1 == sid) with
    | true =>
      simp only [updateFirstStat, hb, if_true, statSum, List.map_cons, List.sum_cons,
        statTotal_applyAction]
      omega
    | false =>
      simp only [List.any_cons, hb, Bool.false_or] at h
      simp only [updateFirstStat, hb, Bool.false_eq_true, if_false, statSum,
        List.map_cons, List.sum_cons]
      have := ih h
      simp only [statSum] at this
      omega

theorem statSum_upsert (l : List (String × Stat)) (sid : String) (act : StatAction) :
    statSum (upsertStat l sid (applyAction act)) = statSum l + 1 := by
  unfold upsertStat
  cases ha : l.any (fun p => p.1 == sid) with
  | true => simpa only [if_true] using statSum_updateFirst l sid act ha
  | false =>
    simp only [Bool.false_eq_true, if_false, statSum, List.map_append, List.sum_append,
      List.map_cons, List.sum_cons, List.map_nil, List.sum_nil, statTotal_applyAction]
    simp [statTotal]

theorem mem_upsert_key (l : List (String × Stat)) (sid : String) (f : Stat → Stat)
    (p : String × Stat) (hp : p ∈ upsertStat l sid f) :
    p.1 ∈ l.map Prod.fst ∨ p.1 = sid := by
  unfold upsertStat at hp
  cases ha : l.any (fun q => q.1 == sid) with
  | true =>
    rw [ha, if_pos rfl] at hp
    left
    clear ha
    induction l with
    | nil => simp [updateFirstStat] at hp
    | cons q rest ih =>
      cases hb : (q.1 == sid) with
      | true =>
        rw [updateFirstStat, if_pos hb] at hp
        rcases List.mem_cons.mp hp with h | h
        · simp [h]
        · exact List.mem_cons.mpr (Or.inr (List.mem_map.mpr ⟨p, h, rfl⟩))
      | false =>
        rw [updateFirstStat, if_neg (by simp [hb])] at hp
        rcases List.mem_cons.mp hp with h | h
        · simp [h]
        · exact List.mem_cons.mpr (Or.inr (ih h))
  | false =>
    rw [ha] at hp
    simp only [Bool.false_eq_true, if_false, List.mem_append, List.mem_singleton] at hp
    rcases hp with h | h
    · exact Or.inl (List.mem_map.mpr ⟨p, h, rfl⟩)
    · right; rw [h]

theorem mem_updateLease (l : List Lease) (i : Nat) (g : Lease → Lease) (b : Lease)
    (hb : b ∈ updateLease l i g) : b ∈ l ∨ ∃ a ∈ l, a.lid = i ∧ b = g a := by
  induction l with
  | nil => simp [updateLease] at hb
  | cons x rest ih =>
    cases hx : (x.lid == i) with
    | true =>
      rw [updateLease, if_pos hx] at hb
      rcases List.mem_cons.mp hb with h | h
      · exact Or.inr ⟨x, List.mem_cons_self x rest, beq_iff_eq.mp hx, h⟩
      · exact Or.inl (List.mem_cons_of_mem x h)
    | false =>
      rw [updateLease, if_neg (by simp [hx])] at hb
      rcases List.mem_cons.mp hb with h | h
      · exact Or.inl (List.mem_cons.mpr (Or.inl h))
      · rcases ih h with h2 | ⟨a, ha, hai, hba⟩
        · exact Or.inl (List.mem_cons_of_mem x h2)
        · exact Or.inr ⟨a, List.mem_cons_of_mem x ha, hai, hba⟩

theorem mem_updateLease_of_ne (l : List Lease) (i : Nat) (g : Lease → Lease) (b : Lease)
    (hb : b ∈ l) (hne : b.lid ≠ i) : b ∈ updateLease l i g := by
  induction l with
  | nil => simp at hb
  | cons x rest ih =>
    cases hx : (x.lid == i) with
    | true =>
      rw [updateLease, if_pos hx]
      rcases List.mem_cons.mp hb with h | h
      · exact absurd (h ▸ beq_iff_eq.mp hx) hne
      · exact List.mem_cons_of_mem _ h
    | false =>
      rw [updateLease, if_neg (by simp [hx])]
      rcases List.mem_cons.mp hb with h | h
      · rw [h]; exact List.mem_cons_self _ _
      · exact List.mem_cons_of_mem _ (ih h)

theorem map_lid_updateLease (l : List Lease) (i : Nat) (g : Lease → Lease)
    (hg : ∀ x, (g x).lid = x.lid) :
    (updateLease l i g).map Lease.lid = l.map Lease.lid := by
  induction l with
  | nil => simp [updateLease]
  | cons x rest ih =>
    cases hx : (x.lid == i) with
    | true => rw [updateLease, if_pos hx]; simp [hg]
    | false => rw [updateLease, if_neg (by simp [hx])]; simp [ih]

theorem find?_lid_updateLease_self (l : List Lease) (i : Nat) (g : Lease → Lease)
    (hg : ∀ x, (g x).lid = x.lid) :
    (updateLease l i g).find? (fun a => a.lid == i)
      = (l.find? (fun a => a.lid == i)).map g := by
  induction l with
  | nil => simp [updateLease]
  | cons x rest ih =>
    cases hx : (x.lid == i) with
    | true =>
      rw [updateLease, if_pos hx]
      have hgx : ((g x).lid == i) = true := by rw [beq_iff_eq, hg]; exact beq_iff_eq.mp hx
      simp [List.find?_cons, hgx, hx]
    | false =>
      rw [updateLease, if_neg (by simp [hx])]
      simp [List.find?_cons, hx, ih]

theorem find?_lid_updateLease_other (l : List Lease) (i j : Nat) (g : Lease → Lease)
    (hg : ∀ x, (g x).lid = x.lid) (hne : j ≠ i) :
    (updateLease l i g).find? (fun a => a.lid == j)
      = l.find? (fun a => a.lid == j) := by
  induction l with
  | nil => simp [updateLease]
  | cons x rest ih =>
    cases hx : (x.lid == i) with
    | true =>
      have hxj : (x.lid == j) = false := by
        rw [beq_eq_false_iff_ne, beq_iff_eq.mp hx]
        exact fun e => hne e.symm
      have hgxj : ((g x).lid == j) = false := by rw [hg]; exact hxj
      rw [updateLease, if_pos hx]
      simp [List.find?_cons, hgxj, hxj]
    | false =>
      rw [updateLease, if_neg (by simp [hx])]
      cases hxj : (x.lid == j) with
      | true => simp [List.find?_cons, hxj]
      | false => simp [List.find?_cons, hxj, ih]

end Helpers2

section Helpers3

theorem length_filter_updateLease (l : List Lease) (i : Nat) (g : Lease → Lease)
    (p : Lease → Bool) (hnd : (l.map Lease.lid).Nodup) (a : Lease) (ha : a ∈ l)
    (hlid : a.lid = i) :
    ((updateLease l i g).filter p).length + (if p a then 1 else 0)
      = (l.filter p).length + (if p (g a) then 1 else 0) := by
  induction l with
  | nil => simp at ha
  | cons x rest ih =>
    rw [List.map_cons, List.nodup_cons] at hnd
    cases hx : (x.lid == i) with
    | true =>
      have hax : a = x := by
        rcases List.mem_cons.mp ha with h | h
        · exact h
        · exfalso
          apply hnd.1
          rw [beq_iff_eq.mp hx, ← hlid]
          exact List.mem_map_of_mem Lease.lid h
      rw [updateLease, if_pos hx, hax]
      simp only [List.filter_cons]
      cases hpx : p x <;> cases hpg : p (g x) <;> simp [hpx, hpg]
    | false =>
      have hax : a ∈ rest := by
        rcases List.mem_cons.mp ha with h | h
        · exfalso; rw [h] at hlid; exact absurd (beq_iff_eq.mpr hlid) (by simp [hx])
        · exact h
      rw [updateLease, if_neg (by simp [hx])]
      simp only [List.filter_cons]
      cases hpx : p x
      · simpa [hpx] using ih hnd.2 hax
      · have := ih hnd.2 hax
        simp only [hpx, if_true, List.length_cons]
        omega

theorem length_filter_append_single (l : List Lease) (b : Lease) (p : Lease → Bool) :
    ((l ++ [b]).filter p).length
      = (l.filter p).length + (if p b then 1 else 0) := by
  cases hpb : p b <;> simp [List.filter_append, List.filter_cons, hpb]

theorem lid_mem_of_mem (l : List Lease) (b : Lease) (hb : b ∈ l) :
    b.lid ∈ l.map Lease.lid :=
  List.mem_map_of_mem Lease.lid hb

end Helpers3

namespace P0

/-- Structural invariant maintained by every operation of the `part_000`
server: lease ids are unique and below the id counter, every order has at
most one `assigned`-status lease, every worker's terminal counters plus
its live `assigned` leases stay within `totalAssigned`, and leases and
stats documents only reference registered watchmen, whose ids come from
the bounded pool. -/
structure Inv (st : St) : Prop where
  nodup : (st.leases.map Lease.lid).Nodup
  ltNext : ∀ a ∈ st.leases, a.lid < st.nextId
  one : ∀ oid, countOrderAssigned st oid ≤ 1
  statsLe : ∀ sid, (getStat st.stats sid).totalConfirmed + (getStat st.stats sid).totalExpired
      + countSidAssigned st sid ≤ (getStat st.stats sid).totalAssigned
  leaseW : ∀ a ∈ st.leases, ∃ w ∈ st.watchmen, w.securityId = a.securityId
  statW : ∀ p ∈ st.stats, ∃ w ∈ st.watchmen, w.securityId = p.1
  sidFmt : ∀ w ∈ st.watchmen, w.securityId ∈ validIds

theorem reassignOrder_eq (st : St) (oid ex : String) (now : Nat) :
    reassignOrder st oid ex now =
      match leastBy (fun w => pendingCount st.leases w.securityId now)
          (st.watchmen.filter (fun w => w.active && !(w.securityId == ex))) with
      | none => st
      | some w =>
        updateSecurityStats (updateSecurityStats
          { st with
            leases := st.leases ++ [⟨st.nextId, oid, w.securityId, .assigned, now,
              none, none, none, some ex⟩],
            nextId := st.nextId + 1 } w.securityId .assignedA) ex .expiredA := rfl

theorem inv_reassignOrder (st : St) (oid ex : String) (now : Nat)
    (hInv : Inv st)
    (hzero : countOrderAssigned st oid = 0)
    (hex : (getStat st.stats ex).totalConfirmed + (getStat st.stats ex).totalExpired
      + countSidAssigned st ex + 1 ≤ (getStat st.stats ex).totalAssigned)
    (hexW : ∃ w ∈ st.watchmen, w.securityId = ex) :
    Inv (reassignOrder st oid ex now) := by
  rw [reassignOrder_eq]
  cases hlb : leastBy (fun w => pendingCount st.leases w.securityId now)
      (st.watchmen.filter (fun w => w.active && !(w.securityId == ex))) with
  | none => exact hInv
  | some w =>
    have hwmem := leastBy_mem _ _ _ hlb
    rw [List.mem_filter] at hwmem
    obtain ⟨hwW, hwprop⟩ := hwmem
    rw [Bool.and_eq_true] at hwprop
    have hwex : w.securityId ≠ ex := by
      intro e
      rw [Bool.not_eq_eq_eq_not, Bool.not_true, beq_eq_false_iff_ne] at hwprop
      exact hwprop.2 e
    set L : Lease := ⟨st.nextId, oid, w.securityId, .assigned, now,
      none, none, none, some ex⟩ with hL
    refine ⟨?_, ?_, ?_, ?_, ?_, ?_, ?_⟩
    · show ((st.leases ++ [L]).map Lease.lid).Nodup
      rw [List.map_append, List.nodup_append]
      refine ⟨hInv.nodup, by simp, ?_⟩
      intro x hx
      have hxlt : x < st.nextId := by
        rcases List.mem_map.mp hx with ⟨b, hb, hbx⟩
        exact hbx ▸ hInv.ltNext b hb
      simp only [List.map_cons, List.map_nil, List.mem_singleton]
      intro e
      rw [e] at hxlt
      exact absurd hxlt (lt_irrefl _)
    · intro a ha
      show a.lid < st.nextId + 1
      rcases List.mem_append.mp ha with h | h
      · exact Nat.lt_succ_of_lt (hInv.ltNext a h)
      · rw [List.mem_singleton.mp h]
        exact Nat.lt_succ_self _
    · intro o'
      show ((st.leases ++ [L]).filter
        (fun a => a.orderId == o' && a.status == LeaseSt.assigned)).length ≤ 1
      rw [length_filter_append_single]
      by_cases ho : oid = o'
      · have h0 : (st.leases.filter
            (fun a => a.orderId == o' && a.status == LeaseSt.assigned)).length = 0 := by
          have := hzero
          rw [countOrderAssigned] at this
          rw [← ho]
          exact this
        rw [h0]
        split <;> omega
      · have hLo : (L.orderId == o' && L.status == LeaseSt.assigned) = false := by
          simp [hL, ho]
        have h1 := hInv.one o'
        rw [countOrderAssigned] at h1
        simp only [hLo, Bool.false_eq_true, if_false]
        omega
    · intro sid'
      show (getStat (upsertStat (upsertStat st.stats w.securityId (applyAction .assignedA))
          ex (applyAction .expiredA)) sid').totalConfirmed
        + (getStat (upsertStat (upsertStat st.stats w.securityId (applyAction .assignedA))
          ex (applyAction .expiredA)) sid').totalExpired
        + ((st.leases ++ [L]).filter
          (fun a => a.securityId == sid' && a.status == LeaseSt.assigned)).length
        ≤ (getStat (upsertStat (upsertStat st.stats w.securityId (applyAction .assignedA))
          ex (applyAction .expiredA)) sid').totalAssigned
      rw [length_filter_append_single]
      by_cases hsw : sid' = w.securityId
      · rw [hsw, getStat_upsert_other _ _ _ _ hwex, getStat_upsert_self]
        have hLs : (L.securityId == w.securityId && L.status == LeaseSt.assigned) = true := by
          simp [hL]
        have hle := hInv.statsLe w.securityId
        rw [countSidAssigned] at hle
        simp only [hLs, if_true, applyAction]
        omega
      · by_cases hse : sid' = ex
        · rw [hse, getStat_upsert_self, getStat_upsert_other _ _ _ _ (Ne.symm hwex)]
          have hLs : (L.securityId == ex && L.status == LeaseSt.assigned) = false := by
            simp [hL, hwex]
          rw [countSidAssigned] at hex
          simp only [hLs, Bool.false_eq_true, if_false, applyAction]
          omega
        · rw [getStat_upsert_other _ _ _ _ hse, getStat_upsert_other _ _ _ _ hsw]
          have hLs : (L.securityId == sid' && L.status == LeaseSt.assigned) = false := by
            simp only [hL, Bool.and_eq_true, beq_iff_eq]
            simp only [Bool.and_eq_false_iff]
            left
            rw [beq_eq_false_iff_ne]
            exact fun e => hsw e.symm
          have hle := hInv.statsLe sid'
          rw [countSidAssigned] at hle
          simp only [hLs, Bool.false_eq_true, if_false]
          omega
    · intro a ha
      rcases List.mem_append.mp ha with h | h
      · exact hInv.leaseW a h
      · rw [List.mem_singleton.mp h]
        exact ⟨w, hwW, rfl⟩
    · intro p hp
      rcases mem_upsert_key _ _ _ _ hp with h | h
      · rcases List.mem_map.mp h with ⟨q, hq, hqk⟩
        rcases mem_upsert_key _ _ _ _ hq with h2 | h2
        · rcases List.mem_map.mp h2 with ⟨r, hr, hrk⟩
          rcases hInv.statW r hr with ⟨w', hw', hw'k⟩
          exact ⟨w', hw', by rw [hw'k, hrk, hqk]⟩
        · exact ⟨w, hwW, by rw [← hqk, ← h2]⟩
      · rcases hexW with ⟨w', hw', hw'k⟩
        exact ⟨w', hw', by rw [hw'k, h]⟩
    · exact hInv.sidFmt

end P0

namespace P0

theorem expireAndReassign_eq (st : St) (a : Lease) (now : Nat) :
    expireAndReassign st a now =
      reassignOrder { st with leases := expireLease st.leases a.lid now }
        a.orderId a.securityId now := rfl

theorem inv_expireAndReassign (st : St) (a : Lease) (now : Nat)
    (hInv : Inv st) (ha : a ∈ st.leases) (hst : a.status = LeaseSt.assigned) :
    Inv (expireAndReassign st a now) := by
  rw [expireAndReassign_eq]
  set gE : Lease → Lease := fun l => { l with status := .expired, expiredAt := some now }
    with hgEdef
  have hgE : ∀ x, (gE x).lid = x.lid := fun _ => rfl
  have hcount : ∀ p : Lease → Bool,
      ((expireLease st.leases a.lid now).filter p).length + (if p a then 1 else 0)
        = (st.leases.filter p).length + (if p (gE a) then 1 else 0) := by
    intro p
    exact length_filter_updateLease st.leases a.lid gE p hInv.nodup a ha rfl
  have hInv1 : Inv { st with leases := expireLease st.leases a.lid now } := by
    refine ⟨?_, ?_, ?_, ?_, ?_, ?_, ?_⟩
    · show ((expireLease st.leases a.lid now).map Lease.lid).Nodup
      rw [expireLease, map_lid_updateLease _ _ _ hgE]
      exact hInv.nodup
    · intro b hb
      show b.lid < st.nextId
      rcases mem_updateLease _ _ _ _ hb with h | ⟨c, hc, hci, hbc⟩
      · exact hInv.ltNext b h
      · rw [hbc]
        exact hInv.ltNext c hc
    · intro o'
      show ((expireLease st.leases a.lid now).filter
        (fun b => b.orderId == o' && b.status == LeaseSt.assigned)).length ≤ 1
      have h := hcount (fun b => b.orderId == o' && b.status == LeaseSt.assigned)
      have h1 := hInv.one o'
      rw [countOrderAssigned] at h1
      have hga : ((gE a).orderId == o' && (gE a).status == LeaseSt.assigned) = false := by
        simp [hgEdef]
      rw [hga] at h
      simp only [Bool.false_eq_true, if_false] at h
      omega
    · intro sid'
      show (getStat st.stats sid').totalConfirmed + (getStat st.stats sid').totalExpired
        + ((expireLease st.leases a.lid now).filter
          (fun b => b.securityId == sid' && b.status == LeaseSt.assigned)).length
        ≤ (getStat st.stats sid').totalAssigned
      have h := hcount (fun b => b.securityId == sid' && b.status == LeaseSt.assigned)
      have h1 := hInv.statsLe sid'
      rw [countSidAssigned] at h1
      have hga : ((gE a).securityId == sid' && (gE a).status == LeaseSt.assigned) = false := by
        simp [hgEdef]
      rw [hga] at h
      simp only [Bool.false_eq_true, if_false] at h
      omega
    · intro b hb
      rcases mem_updateLease _ _ _ _ hb with h | ⟨c, hc, hci, hbc⟩
      · exact hInv.leaseW b h
      · rw [hbc]
        exact hInv.leaseW c hc
    · exact hInv.statW
    · exact hInv.sidFmt
  have hzero : countOrderAssigned { st with leases := expireLease st.leases a.lid now }
      a.orderId = 0 := by
    have h := hcount (fun b => b.orderId == a.orderId && b.status == LeaseSt.assigned)
    have h1 := hInv.one a.orderId
    rw [countOrderAssigned] at h1
    have hpa : (a.orderId == a.orderId && a.status == LeaseSt.assigned) = true := by
      simp [hst]
    have hga : ((gE a).orderId == a.orderId && (gE a).status == LeaseSt.assigned) = false := by
      simp [hgEdef]
    rw [hpa, hga] at h
    simp only [Bool.false_eq_true, if_false, if_true] at h
    show ((expireLease st.leases a.lid now).filter
      (fun b => b.orderId == a.orderId && b.status == LeaseSt.assigned)).length = 0
    omega
  have hex : (getStat st.stats a.securityId).totalConfirmed
      + (getStat st.stats a.securityId).totalExpired
      + countSidAssigned { st with leases := expireLease st.leases a.lid now } a.securityId + 1
      ≤ (getStat st.stats a.securityId).totalAssigned := by
    have h := hcount (fun b => b.securityId == a.securityId && b.status == LeaseSt.assigned)
    have h1 := hInv.statsLe a.securityId
    rw [countSidAssigned] at h1
    have hpa : (a.securityId == a.securityId && a.status == LeaseSt.assigned) = true := by
      simp [hst]
    have hga : ((gE a).securityId == a.securityId && (gE a).status == LeaseSt.assigned)
        = false := by
      simp [hgEdef]
    rw [hpa, hga] at h
    simp only [Bool.false_eq_true, if_false, if_true] at h
    show _ + _ + ((expireLease st.leases a.lid now).filter
      (fun b => b.securityId == a.securityId && b.status == LeaseSt.assigned)).length + 1 ≤ _
    omega
  have hexW : ∃ w ∈ st.watchmen, w.securityId = a.securityId := hInv.leaseW a ha
  exact inv_reassignOrder _ a.orderId a.securityId now hInv1 hzero hex hexW

end P0

namespace P0

theorem findAvailableSecurityId_eq (st : St) (now : Nat) :
    findAvailableSecurityId st now =
      if (st.watchmen.filter (fun w => w.active)).isEmpty then none
      else (leastBy (fun w => pendingCount st.leases w.securityId now)
        (st.watchmen.filter (fun w => w.active))).map (fun w => w.securityId) := rfl

theorem findAvailableSecurityId_mem (st : St) (now : Nat) (sid : String)
    (h : findAvailableSecurityId st now = some sid) :
    ∃ w ∈ st.watchmen, w.active = true ∧ w.securityId = sid := by
  rw [findAvailableSecurityId_eq] at h
  split at h
  · exact absurd h (by simp)
  · cases hlb : leastBy (fun w => pendingCount st.leases w.securityId now)
        (st.watchmen.filter (fun w => w.active)) with
    | none => rw [hlb] at h; simp at h
    | some w =>
      rw [hlb] at h
      simp only [Option.map_some', Option.some_inj] at h
      have hwmem := leastBy_mem _ _ _ hlb
      rw [List.mem_filter] at hwmem
      exact ⟨w, hwmem.1, hwmem.2, h⟩

theorem reassignOrder_leases_sub (s : St) (o e : String) (n : Nat) (b : Lease)
    (hb : b ∈ s.leases) : b ∈ (reassignOrder s o e n).leases := by
  rw [reassignOrder_eq]
  cases hlb : leastBy (fun w => pendingCount s.leases w.securityId n)
      (s.watchmen.filter (fun w => w.active && !(w.securityId == e))) with
  | none => exact hb
  | some w => exact List.mem_append_left _ hb

theorem inv_assign (st : St) (o : String) (now : Nat) (hInv : Inv st) :
    Inv (assign st o now).1 := by
  unfold assign
  split
  · exact hInv
  · split
    · exact hInv
    · split
      · exact hInv
      · rename_i hord hno
        cases hfa : findAvailableSecurityId st now with
        | none => exact hInv
        | some sid =>
          obtain ⟨w, hwW, hwact, hwsid⟩ := findAvailableSecurityId_mem st now sid hfa
          show Inv (updateSecurityStats
            { st with
              leases := st.leases ++ [⟨st.nextId, o, sid, .assigned, now,
                none, none, none, none⟩],
              nextId := st.nextId + 1 } sid .assignedA)
          set L : Lease := ⟨st.nextId, o, sid, .assigned, now, none, none, none, none⟩
            with hL
          have hcnt0 : (st.leases.filter
              (fun b => b.orderId == o && b.status == LeaseSt.assigned)).length = 0 := by
            rw [List.length_eq_zero, List.filter_eq_nil_iff]
            intro b hb
            have hany := List.any_eq_false.mp (Bool.not_eq_true _ |>.mp hno) b hb
            simp only [Bool.and_eq_true, Bool.or_eq_true, not_and, not_or] at hany ⊢
            intro hbo hbs
            exact (hany hbo).1 hbs
          refine ⟨?_, ?_, ?_, ?_, ?_, ?_, ?_⟩
          · show ((st.leases ++ [L]).map Lease.lid).Nodup
            rw [List.map_append, List.nodup_append]
            refine ⟨hInv.nodup, by simp, ?_⟩
            intro x hx
            have hxlt : x < st.nextId := by
              rcases List.mem_map.mp hx with ⟨b, hb, hbx⟩
              exact hbx ▸ hInv.ltNext b hb
            simp only [List.map_cons, List.map_nil, List.mem_singleton]
            intro e
            rw [e] at hxlt
            exact absurd hxlt (lt_irrefl _)
          · intro a ha
            show a.lid < st.nextId + 1
            rcases List.mem_append.mp ha with h | h
            · exact Nat.lt_succ_of_lt (hInv.ltNext a h)
            · rw [List.mem_singleton.mp h]
              exact Nat.lt_succ_self _
          · intro o'
            show ((st.leases ++ [L]).filter
              (fun b => b.orderId == o' && b.status == LeaseSt.assigned)).length ≤ 1
            rw [length_filter_append_single]
            by_cases ho : o = o'
            · rw [← ho, hcnt0]
              split <;> omega
            · have hLo : (L.orderId == o' && L.status == LeaseSt.assigned) = false := by
                simp [hL, ho]
              have h1 := hInv.one o'
              rw [countOrderAssigned] at h1
              simp only [hLo, Bool.false_eq_true, if_false]
              omega
          · intro sid'
            show (getStat (upsertStat st.stats sid (applyAction .assignedA)) sid').totalConfirmed
              + (getStat (upsertStat st.stats sid (applyAction .assignedA)) sid').totalExpired
              + ((st.leases ++ [L]).filter
                (fun b => b.securityId == sid' && b.status == LeaseSt.assigned)).length
              ≤ (getStat (upsertStat st.stats sid (applyAction .assignedA)) sid').totalAssigned
            rw [length_filter_append_single]
            by_cases hs : sid' = sid
            · rw [hs, getStat_upsert_self]
              have hLs : (L.securityId == sid && L.status == LeaseSt.assigned) = true := by
                simp [hL]
              have hle := hInv.statsLe sid
              rw [countSidAssigned] at hle
              simp only [hLs, if_true, applyAction]
              omega
            · rw [getStat_upsert_other _ _ _ _ hs]
              have hLs : (L.securityId == sid' && L.status == LeaseSt.assigned) = false := by
                simp only [hL, Bool.and_eq_false_iff]
                left
                rw [beq_eq_false_iff_ne]
                exact fun e => hs e.symm
              have hle := hInv.statsLe sid'
              rw [countSidAssigned] at hle
              simp only [hLs, Bool.false_eq_true, if_false]
              omega
          · intro a ha
            rcases List.mem_append.mp ha with h | h
            · exact hInv.leaseW a h
            · rw [List.mem_singleton.mp h]
              exact ⟨w, hwW, hwsid⟩
          · intro p hp
            rcases mem_upsert_key _ _ _ _ hp with h | h
            · rcases List.mem_map.mp h with ⟨q, hq, hqk⟩
              rcases hInv.statW q hq with ⟨w', hw', hw'k⟩
              exact ⟨w', hw', by rw [hw'k, hqk]⟩
            · exact ⟨w, hwW, by rw [hwsid, h]⟩
          · exact hInv.sidFmt

end P0


namespace P0

theorem inv_confirm (st : St) (o sid nm : String) (now : Nat) (hInv : Inv st) :
    Inv (confirm st o sid nm now).1 := by
  unfold confirm
  split
  · exact hInv
  split
  · exact hInv
  split
  · exact hInv
  rename_i w hw
  split
  · exact hInv
  split
  · exact hInv
  rename_i a hfind
  have haMem := List.mem_of_find?_eq_some hfind
  have haP := List.find?_some hfind
  simp only [Bool.and_eq_true, beq_iff_eq] at haP
  obtain ⟨⟨hao, has⟩, hast⟩ := haP
  have hwMem := List.mem_of_find?_eq_some hw
  have hwP := List.find?_some hw
  simp only [Bool.and_eq_true, beq_iff_eq] at hwP
  obtain ⟨hwsid, hwact⟩ := hwP
  split
  · show Inv (expireAndReassign st a now)
    exact inv_expireAndReassign st a now hInv haMem hast
  · show Inv (updateSecurityStats
      { st with
        leases := confirmLease st.leases a.lid now ((now - a.assignedAt) / 1000),
        orders := verifyOrder st.orders o } sid .confirmedA)
    set ct := (now - a.assignedAt) / 1000 with hct
    set gC : Lease → Lease := fun l =>
      { l with status := .confirmed, confirmedAt := some now, completionTime := some ct }
      with hgCdef
    have hgC : ∀ x, (gC x).lid = x.lid := fun _ => rfl
    have hleq : confirmLease st.leases a.lid now ct = updateLease st.leases a.lid gC := rfl
    have hcount : ∀ p : Lease → Bool,
        ((confirmLease st.leases a.lid now ct).filter p).length + (if p a then 1 else 0)
          = (st.leases.filter p).length + (if p (gC a) then 1 else 0) := by
      intro p
      rw [hleq]
      exact length_filter_updateLease st.leases a.lid gC p hInv.nodup a haMem rfl
    refine ⟨?_, ?_, ?_, ?_, ?_, ?_, ?_⟩
    · show ((confirmLease st.leases a.lid now ct).map Lease.lid).Nodup
      rw [hleq, map_lid_updateLease _ _ _ hgC]
      exact hInv.nodup
    · intro b hb
      rw [hleq] at hb
      show b.lid < st.nextId
      rcases mem_updateLease _ _ _ _ hb with h | ⟨c, hc, hci, hbc⟩
      · exact hInv.ltNext b h
      · rw [hbc]
        exact hInv.ltNext c hc
    · intro o'
      show ((confirmLease st.leases a.lid now ct).filter
        (fun b => b.orderId == o' && b.status == LeaseSt.assigned)).length ≤ 1
      have h := hcount (fun b => b.orderId == o' && b.status == LeaseSt.assigned)
      have h1 := hInv.one o'
      rw [countOrderAssigned] at h1
      have hga : ((gC a).orderId == o' && (gC a).status == LeaseSt.assigned) = false := by
        simp [hgCdef]
      rw [hga] at h
      simp only [Bool.false_eq_true, if_false] at h
      omega
    · intro sid'
      show (getStat (upsertStat st.stats sid (applyAction .confirmedA)) sid').totalConfirmed
        + (getStat (upsertStat st.stats sid (applyAction .confirmedA)) sid').totalExpired
        + ((confirmLease st.leases a.lid now ct).filter
          (fun b => b.securityId == sid' && b.status == LeaseSt.assigned)).length
        ≤ (getStat (upsertStat st.stats sid (applyAction .confirmedA)) sid').totalAssigned
      have h := hcount (fun b => b.securityId == sid' && b.status == LeaseSt.assigned)
      have hga : ((gC a).securityId == sid' && (gC a).status == LeaseSt.assigned) = false := by
        simp [hgCdef]
      rw [hga] at h
      simp only [Bool.false_eq_true, if_false] at h
      have h1 := hInv.statsLe sid'
      rw [countSidAssigned] at h1
      by_cases hs : sid' = sid
      · rw [hs, getStat_upsert_self]
        have hpa : (a.securityId == sid && a.status == LeaseSt.assigned) = true := by
          simp [has, hast]
        rw [hs, hpa] at h
        simp only [if_true] at h
        rw [hs] at h1
        simp only [applyAction]
        omega
      · rw [getStat_upsert_other _ _ _ _ hs]
        have hpa : (a.securityId == sid' && a.status == LeaseSt.assigned) = false := by
          simp only [Bool.and_eq_false_iff]
          left
          rw [beq_eq_false_iff_ne, has]
          exact fun e => hs e.symm
        rw [hpa] at h
        simp only [Bool.false_eq_true, if_false] at h
        omega
    · intro b hb
      rw [hleq] at hb
      rcases mem_updateLease _ _ _ _ hb with h | ⟨c, hc, hci, hbc⟩
      · exact hInv.leaseW b h
      · rw [hbc]
        exact hInv.leaseW c hc
    · intro p hp
      rcases mem_upsert_key _ _ _ _ hp with h | h
      · rcases List.mem_map.mp h with ⟨q, hq, hqk⟩
        rcases hInv.statW q hq with ⟨w', hw', hw'k⟩
        exact ⟨w', hw', by rw [hw'k, hqk]⟩
      · exact ⟨w, hwMem, by rw [hwsid, h]⟩
    · exact hInv.sidFmt

end P0

namespace P0

theorem freeId_some (used : List Nat) (sid : String) (h : freeId used = some sid) :
    ∃ i, i ∈ ([1, 2, 3, 4, 5] : List Nat) ∧ sid = toString i ∧ used.contains i = false := by
  unfold freeId at h
  cases hf : ([1, 2, 3, 4, 5] : List Nat).find? (fun i => !(used.contains i)) with
  | none => rw [hf] at h; simp at h
  | some i =>
    rw [hf] at h
    simp only [Option.map_some', Option.some_inj] at h
    have hm := List.mem_of_find?_eq_some hf
    have hp := List.find?_some hf
    simp only [Bool.not_eq_true'] at hp
    exact ⟨i, hm, h.symm, hp⟩

theorem toString_mem_validIds (i : Nat) (h : i ∈ ([1, 2, 3, 4, 5] : List Nat)) :
    toString i ∈ validIds := by
  fin_cases h <;> decide

theorem parseId_toString (i : Nat) (h : i ∈ ([1, 2, 3, 4, 5] : List Nat)) :
    parseId (toString i) = i := by
  fin_cases h <;> decide

theorem getStat_append_single (l : List (String × Stat)) (e : String × Stat) (sid : String) :
    getStat (l ++ [e]) sid =
      if (l.find? (fun p => p.1 == sid)).isSome then getStat l sid
      else if e.1 == sid then e.2 else ⟨0, 0, 0⟩ := by
  unfold getStat
  rw [List.find?_append]
  cases hf : l.find? (fun p => p.1 == sid) with
  | some q => simp
  | none =>
    cases he : (e.1 == sid) with
    | true => simp [List.find?_cons, he]
    | false => simp [List.find?_cons, he]

theorem inv_register (st : St) (nm ct em : String) (hInv : Inv st) :
    Inv (register st nm ct em).1 := by
  unfold register
  split
  · exact hInv
  split
  · exact hInv
  split
  · exact hInv
  rename_i sid hf
  obtain ⟨i, hi5, hsid, hfree⟩ := freeId_some _ _ hf
  have hfresh : ∀ w' ∈ st.watchmen, w'.securityId ≠ sid := by
    intro w' hw' e
    have hin : i ∈ st.watchmen.map (fun w => parseId w.securityId) := by
      have hpe : parseId w'.securityId = i := by
        rw [e, hsid, parseId_toString i hi5]
      exact hpe ▸ List.mem_map_of_mem _ hw'
    have hnin : i ∉ st.watchmen.map (fun w => parseId w.securityId) := by
      simpa using hfree
    exact hnin hin
  set W : Watchman :=
    { name := jsTrim nm, nameLower := normName nm, contact := jsTrim ct,
      email := jsTrim em, securityId := sid, active := true } with hW
  refine ⟨hInv.nodup, hInv.ltNext, hInv.one, ?_, ?_, ?_, ?_⟩
  · intro sid'
    show (getStat (st.stats ++ [(sid, ⟨0, 0, 0⟩)]) sid').totalConfirmed
      + (getStat (st.stats ++ [(sid, ⟨0, 0, 0⟩)]) sid').totalExpired
      + (st.leases.filter (fun b => b.securityId == sid' && b.status == LeaseSt.assigned)).length
      ≤ (getStat (st.stats ++ [(sid, ⟨0, 0, 0⟩)]) sid').totalAssigned
    rw [getStat_append_single]
    split
    · have h1 := hInv.statsLe sid'
      rw [countSidAssigned] at h1
      exact h1
    · split
      · rename_i hnon hyes
        have hsideq : sid = sid' := by simpa using hyes
        have hcnt0 : (st.leases.filter
            (fun b => b.securityId == sid' && b.status == LeaseSt.assigned)).length = 0 := by
          rw [List.length_eq_zero, List.filter_eq_nil_iff]
          intro b hb hbp
          simp only [Bool.and_eq_true, beq_iff_eq] at hbp
          rcases hInv.leaseW b hb with ⟨w', hw', hw'k⟩
          exact hfresh w' hw' (by rw [hw'k, hbp.1, ← hsideq])
        rw [hcnt0]
        exact Nat.le_refl 0
      · have h1 := hInv.statsLe sid'
        rw [countSidAssigned] at h1
        have hgd : getStat st.stats sid' = ⟨0, 0, 0⟩ := by
          unfold getStat
          rename_i hnon _
          cases hff : st.stats.find? (fun p => p.1 == sid') with
          | none => simp
          | some q => rw [hff] at hnon; simp at hnon
        rw [hgd] at h1
        simp only [] at h1 ⊢
        omega
  · intro a ha
    rcases hInv.leaseW a ha with ⟨w', hw', hw'k⟩
    exact ⟨w', List.mem_append_left _ hw', hw'k⟩
  · intro p hp
    rcases List.mem_append.mp hp with h | h
    · rcases hInv.statW p h with ⟨w', hw', hw'k⟩
      exact ⟨w', List.mem_append_left _ hw', hw'k⟩
    · refine ⟨W, List.mem_append_right _ (by simp), ?_⟩
      rw [List.mem_singleton.mp h, hW]
  · intro w' hw'
    rcases List.mem_append.mp hw' with h | h
    · exact hInv.sidFmt w' h
    · rw [List.mem_singleton.mp h, hW]
      exact hsid ▸ toString_mem_validIds i hi5

theorem inv_sweepLoop (now : Nat) (pending : List Lease) :
    ∀ st : St, Inv st →
    (∀ a ∈ pending, a ∈ st.leases ∧ a.status = LeaseSt.assigned) →
    (pending.map Lease.lid).Nodup →
    Inv (pending.foldl (fun s a => sweepItem s a now) st) := by
  induction pending with
  | nil => intro st hInv _ _; exact hInv
  | cons a rest ih =>
    intro st hInv hmem hnd
    simp only [List.foldl_cons]
    have ha := hmem a (List.mem_cons_self a rest)
    rw [List.map_cons, List.nodup_cons] at hnd
    apply ih
    · exact inv_expireAndReassign st a now hInv ha.1 ha.2
    · intro b hb
      have hbSt := hmem b (List.mem_cons_of_mem a hb)
      have hbne : b.lid ≠ a.lid := by
        intro e
        exact hnd.1 (e ▸ lid_mem_of_mem _ _ hb)
      refine ⟨?_, hbSt.2⟩
      show b ∈ (expireAndReassign st a now).leases
      rw [expireAndReassign_eq]
      apply reassignOrder_leases_sub
      exact mem_updateLease_of_ne _ _ _ _ hbSt.1 hbne
    · exact hnd.2

theorem inv_sweep (st : St) (now : Nat) (hInv : Inv st) : Inv (sweep st now) := by
  unfold sweep
  apply inv_sweepLoop now _ st hInv
  · intro a ha
    rw [List.mem_filter] at ha
    refine ⟨ha.1, ?_⟩
    have h2 := ha.2
    simp only [Bool.and_eq_true, beq_iff_eq] at h2
    exact h2.1
  · exact List.Nodup.sublist ((List.filter_sublist _).map Lease.lid) hInv.nodup

theorem inv_setActive (st : St) (sid : String) (b : Bool) (hInv : Inv st) :
    Inv { st with watchmen := setActiveFn sid b st.watchmen } := by
  have hsid : ∀ w ∈ st.watchmen,
      ∃ w' ∈ setActiveFn sid b st.watchmen, w'.securityId = w.securityId := by
    intro w hw
    refine ⟨if w.securityId == sid then { w with active := b } else w,
      List.mem_map_of_mem _ hw, ?_⟩
    split <;> rfl
  refine ⟨hInv.nodup, hInv.ltNext, hInv.one, hInv.statsLe, ?_, ?_, ?_⟩
  · intro a ha
    rcases hInv.leaseW a ha with ⟨w, hw, hwk⟩
    rcases hsid w hw with ⟨w', hw', hw'k⟩
    exact ⟨w', hw', hw'k.trans hwk⟩
  · intro p hp
    rcases hInv.statW p hp with ⟨w, hw, hwk⟩
    rcases hsid w hw with ⟨w', hw', hw'k⟩
    exact ⟨w', hw', hw'k.trans hwk⟩
  · intro w' hw'
    rcases List.mem_map.mp hw' with ⟨w, hw, hwe⟩
    have he : w'.securityId = w.securityId := by rw [← hwe]; split <;> rfl
    rw [he]
    exact hInv.sidFmt w hw

theorem inv_addOrder (st : St) (o : Order) (hInv : Inv st) :
    Inv { st with orders := st.orders ++ [o] } :=
  ⟨hInv.nodup, hInv.ltNext, hInv.one, hInv.statsLe, hInv.leaseW, hInv.statW, hInv.sidFmt⟩

theorem inv_init : Inv initSt := by
  refine ⟨?_, ?_, ?_, ?_, ?_, ?_, ?_⟩
  · simp [initSt]
  · intro a ha; simp [initSt] at ha
  · intro oid; exact Nat.zero_le 1
  · intro sid; exact Nat.le_refl 0
  · intro a ha; simp [initSt] at ha
  · intro p hp; simp [initSt] at hp
  · intro w hw; simp [initSt] at hw

theorem inv_step {s s' : St} (hInv : Inv s) (h : Step s s') : Inv s' := by
  cases h with
  | addOrder o => exact inv_addOrder _ o hInv
  | setActive sid b => exact inv_setActive _ sid b hInv
  | register nm ct em => exact inv_register _ nm ct em hInv
  | assign o now => exact inv_assign _ o now hInv
  | confirm o sid nm now => exact inv_confirm _ o sid nm now hInv
  | sweep now => exact inv_sweep _ now hInv

theorem reachable_inv {s : St} (h : Reachable s) : Inv s := by
  induction h with
  | init => exact inv_init
  | step h1 h2 ih => exact inv_step ih h2

end P0

/-- Claim C5: after any sequence of operations starting from the freshly
initialised database, every worker's counters satisfy
totalConfirmed + totalExpired ≤ totalAssigned. -/
theorem c5_counters_bounded (s : St) (h : P0.Reachable s) (sid : String) :
    (getStat s.stats sid).totalConfirmed + (getStat s.stats sid).totalExpired
      ≤ (getStat s.stats sid).totalAssigned := by
  have hs := (P0.reachable_inv h).statsLe sid
  omega

theorem c5_witness :
    (getStat (P0.assign
        { (P0.register P0.initSt "Alice" "9876543210" "").1 with
          orders := (P0.register P0.initSt "Alice" "9876543210" "").1.orders
            ++ [⟨"O1", "completed"⟩] } "O1" 1000).1.stats "1").totalConfirmed
      + (getStat (P0.assign
        { (P0.register P0.initSt "Alice" "9876543210" "").1 with
          orders := (P0.register P0.initSt "Alice" "9876543210" "").1.orders
            ++ [⟨"O1", "completed"⟩] } "O1" 1000).1.stats "1").totalExpired
      ≤ (getStat (P0.assign
        { (P0.register P0.initSt "Alice" "9876543210" "").1 with
          orders := (P0.register P0.initSt "Alice" "9876543210" "").1.orders
            ++ [⟨"O1", "completed"⟩] } "O1" 1000).1.stats "1").totalAssigned :=
  c5_counters_bounded _
    (P0.Reachable.step
      (P0.Reachable.step
        (P0.Reachable.step P0.Reachable.init
          (P0.Step.register P0.initSt "Alice" "9876543210" ""))
        (P0.Step.addOrder _ ⟨"O1", "completed"⟩))
      (P0.Step.assign _ "O1" 1000)) "1"

/-- Claim C1 (amended): in the `part_000` variant every reachable state
has at most one `assigned`-status lease per order, and `assign` on a
ready (completed, non-empty-id) order fails with `AlreadyAssigned`
whenever a non-terminal (assigned or confirmed) lease already exists for
it, changing nothing.  The `server.js` variants' assign performs no such
existing-lease check and can create a second concurrently-assigned lease
for the same order (see the counterexample). -/
theorem c1_one_assigned_amended :
    (∀ s : St, P0.Reachable s → ∀ oid : String, countOrderAssigned s oid ≤ 1)
    ∧ (∀ (s : St) (oid : String) (now : Nat), oid ≠ "" →
        (s.orders.find? (fun o => o.orderId == oid && o.status == "completed")).isSome →
        (s.leases.any (fun a => a.orderId == oid
          && (a.status == LeaseSt.assigned || a.status == LeaseSt.confirmed))) = true →
        P0.assign s oid now = (s, .alreadyAssigned)) := by
  constructor
  · intro s h oid
    exact (P0.reachable_inv h).one oid
  · intro s oid now h1 h2 h3
    unfold P0.assign
    rw [if_neg h1]
    cases hf : s.orders.find? (fun o => o.orderId == oid && o.status == "completed") with
    | none => rw [hf] at h2; simp at h2
    | some q => simp only [h3, if_true]

/-- State of the `server.js` variant holding one active watchman and one
`assigned`-status lease for order O1. -/
def c1State : St :=
  ⟨[⟨"Alice", "alice", "9876543210", "", "1", true⟩],
   [⟨0, "O1", "1", .assigned, 0, none, none, none, none⟩],
   [("1", ⟨1, 0, 0⟩)], [⟨"O1", "completed"⟩], 1⟩

/-- Claim C1 counterexample: with an `assigned`-status lease already
present for O1, the `server.js` assign succeeds instead of failing with
`AlreadyAssigned`, leaving two concurrently-assigned leases for O1. -/
theorem c1_counterexample :
    (SC.assign c1State "O1" 1000).2 = .ok "1"
    ∧ countOrderAssigned (SC.assign c1State "O1" 1000).1 "O1" = 2 := by
  constructor <;> decide

theorem c1_witness :
    countOrderAssigned P0.initSt "O1" ≤ 1
    ∧ P0.assign c1State "O1" 5 = (c1State, .alreadyAssigned) :=
  ⟨c1_one_assigned_amended.1 P0.initSt P0.Reachable.init "O1",
   c1_one_assigned_amended.2 c1State "O1" 5 (by decide) (by decide) (by decide)⟩

namespace SC

theorem reassignSC_eq (st : St) (oid cur : String) (now : Nat) :
    reassignOrder st oid cur now =
      match (st.watchmen.filter (fun w => w.active && !(w.securityId == cur))).head? with
      | none => st
      | some w =>
        updateSecurityStats
          { st with
            leases := st.leases ++ [⟨st.nextId, oid, w.securityId, .assigned, now,
              none, none, none, some cur⟩],
            nextId := st.nextId + 1 } w.securityId .assignedA := rfl

end SC

/-- Claim C4: in both variants, the reassignment procedure never selects
the excluded worker — any lease it creates belongs to a worker different
from the excluded id — and when no other active worker exists it returns
with the state unchanged, creating no lease. -/
theorem c4_reassign_excludes_worker (s : St) (oid ex : String) (now : Nat) :
    ((∀ a ∈ (P0.reassignOrder s oid ex now).leases, a ∉ s.leases → a.securityId ≠ ex)
      ∧ (s.watchmen.filter (fun w => w.active && !(w.securityId == ex)) = [] →
        P0.reassignOrder s oid ex now = s))
    ∧ ((∀ a ∈ (SC.reassignOrder s oid ex now).leases, a ∉ s.leases → a.securityId ≠ ex)
      ∧ (s.watchmen.filter (fun w => w.active && !(w.securityId == ex)) = [] →
        SC.reassignOrder s oid ex now = s)) := by
  constructor
  · rw [P0.reassignOrder_eq]
    cases hlb : leastBy (fun w => pendingCount s.leases w.securityId now)
        (s.watchmen.filter (fun w => w.active && !(w.securityId == ex))) with
    | none => exact ⟨fun a ha hna => absurd ha hna, fun _ => rfl⟩
    | some w =>
      have hwmem := leastBy_mem _ _ _ hlb
      rw [List.mem_filter, Bool.and_eq_true] at hwmem
      constructor
      · intro a ha hna
        rcases List.mem_append.mp ha with h | h
        · exact absurd h hna
        · rw [List.mem_singleton.mp h]
          show w.securityId ≠ ex
          have h2 := hwmem.2.2
          rw [Bool.not_eq_eq_eq_not, Bool.not_true, beq_eq_false_iff_ne] at h2
          exact h2
      · intro hemp
        rw [hemp] at hlb
        simp [leastBy] at hlb
  · rw [SC.reassignSC_eq]
    cases hfl : s.watchmen.filter (fun w => w.active && !(w.securityId == ex)) with
    | nil => exact ⟨fun a ha hna => absurd ha hna, fun _ => rfl⟩
    | cons w ws =>
      have hwmem : w ∈ s.watchmen.filter (fun w => w.active && !(w.securityId == ex)) := by
        rw [hfl]; exact List.mem_cons_self w ws
      rw [List.mem_filter, Bool.and_eq_true] at hwmem
      constructor
      · intro a ha hna
        simp only [List.head?] at ha
        rcases List.mem_append.mp ha with h | h
        · exact absurd h hna
        · rw [List.mem_singleton.mp h]
          show w.securityId ≠ ex
          have h2 := hwmem.2.2
          rw [Bool.not_eq_eq_eq_not, Bool.not_true, beq_eq_false_iff_ne] at h2
          exact h2
      · intro hemp
        exact absurd hemp (by simp)

/-- State with a single active watchman "1" and one of its leases. -/
def c4State : St :=
  ⟨[⟨"Alice", "alice", "9876543210", "", "1", true⟩],
   [⟨0, "O1", "1", .assigned, 0, none, none, none, none⟩],
   [("1", ⟨1, 0, 0⟩)], [], 1⟩

/-- State with two active watchmen where reassignment away from "1" must
pick "2". -/
def c4State2 : St :=
  ⟨[⟨"Alice", "alice", "9876543210", "", "1", true⟩,
    ⟨"Bob", "bob", "9876543210", "", "2", true⟩],
   [], [], [], 1⟩

theorem c4_witness :
    (P0.reassignOrder c4State "O9" "1" 0 = c4State
      ∧ SC.reassignOrder c4State "O9" "1" 0 = c4State)
    ∧ (Lease.securityId ⟨1, "O1", "2", .assigned, 7, none, none, none, some "1"⟩ ≠ "1"
      ∧ Lease.securityId ⟨1, "O1", "2", .assigned, 7, none, none, none, some "1"⟩ ≠ "1") :=
  ⟨⟨(c4_reassign_excludes_worker c4State "O9" "1" 0).1.2 (by decide),
    (c4_reassign_excludes_worker c4State "O9" "1" 0).2.2 (by decide)⟩,
   ⟨(c4_reassign_excludes_worker c4State2 "O1" "1" 7).1.1
      ⟨1, "O1", "2", .assigned, 7, none, none, none, some "1"⟩ (by decide) (by decide),
    (c4_reassign_excludes_worker c4State2 "O1" "1" 7).2.1
      ⟨1, "O1", "2", .assigned, 7, none, none, none, some "1"⟩ (by decide) (by decide)⟩⟩

/-- Claim C7: with zero active watchmen, assign fails with
`NoWorkersAvailable` and mutates nothing, in both variants (in
`part_000`, under its own preconditions of a completed, not yet assigned
order). -/
theorem c7_assign_no_workers (s : St) (oid : String) (now : Nat)
    (h0 : oid ≠ "")
    (hw : s.watchmen.filter (fun w => w.active) = []) :
    ((s.orders.find? (fun o => o.orderId == oid && o.status == "completed")).isSome →
      (s.leases.any (fun a => a.orderId == oid
        && (a.status == LeaseSt.assigned || a.status == LeaseSt.confirmed))) = false →
      P0.assign s oid now = (s, .noWorkers))
    ∧ SC.assign s oid now = (s, .noWorkers) := by
  constructor
  · intro h2 h3
    unfold P0.assign
    rw [if_neg h0]
    cases hf : s.orders.find? (fun o => o.orderId == oid && o.status == "completed") with
    | none => rw [hf] at h2; simp at h2
    | some q =>
      simp only [h3, Bool.false_eq_true, if_false]
      rw [P0.findAvailableSecurityId_eq, hw]
      simp
  · unfold SC.assign
    rw [if_neg h0, hw]
    simp [SC.sortBySid]

/-- State whose only watchman is inactive, with a completed order. -/
def c7State : St :=
  ⟨[⟨"Alice", "alice", "9876543210", "", "1", false⟩],
   [], [("1", ⟨0, 0, 0⟩)], [⟨"O3", "completed"⟩], 0⟩

theorem c7_witness :
    P0.assign c7State "O3" 42 = (c7State, .noWorkers)
    ∧ SC.assign c7State "O3" 42 = (c7State, .noWorkers) :=
  ⟨(c7_assign_no_workers c7State "O3" 42 (by decide) (by decide)).1 (by decide) (by decide),
   (c7_assign_no_workers c7State "O3" 42 (by decide) (by decide)).2⟩

namespace P0

theorem confirm_eq_resolved (s : St) (oid sid nm : String) (now : Nat) (w : Watchman)
    (hg : ¬(oid = "" ∨ sid = "" ∨ nm = ""))
    (hv : validIds.contains sid = true)
    (hw : s.watchmen.find? (fun x => x.securityId == sid && x.active) = some w) :
    confirm s oid sid nm now =
      if !(w.nameLower == normName nm) then (s, .identityMismatch)
      else
        match s.leases.find? (fun b => b.orderId == oid && b.securityId == sid
            && b.status == LeaseSt.assigned) with
        | none => (s, .leaseNotFound)
        | some a =>
          if 300000 < now - a.assignedAt then
            (expireAndReassign s a now, .leaseExpired)
          else
            (updateSecurityStats
              { s with
                leases := confirmLease s.leases a.lid now ((now - a.assignedAt) / 1000),
                orders := verifyOrder s.orders oid } sid .confirmedA,
              .ok ((now - a.assignedAt) / 1000)) := by
  unfold confirm
  rw [if_neg hg, if_neg (by rw [hv]; simp), hw]

end P0

namespace SC

theorem confirmSC_eq_resolved (s : St) (oid sid nm : String) (now : Nat) (w : Watchman)
    (hg : ¬(oid = "" ∨ sid = "" ∨ nm = ""))
    (hw : s.watchmen.find? (fun x => x.securityId == sid && x.active) = some w) :
    confirm s oid sid nm now =
      if !(w.nameLower == normName nm) then (s, .identityMismatch)
      else
        match s.leases.find? (fun b => b.orderId == oid && b.securityId == sid
            && b.status == LeaseSt.assigned) with
        | none => (s, .leaseNotFound)
        | some a =>
          if 300000 < now - a.assignedAt then
            (updateSecurityStats
              (reassignOrder { s with leases := expireLease s.leases a.lid now } oid sid now)
              sid .expiredA, .leaseExpired)
          else
            (updateSecurityStats
              { s with
                leases := confirmLease s.leases a.lid now ((now - a.assignedAt) / 1000),
                orders := verifyOrder s.orders oid } sid .confirmedA,
              .ok ((now - a.assignedAt) / 1000)) := by
  unfold confirm
  rw [if_neg hg, hw]

end SC

/-- Claim C8: when the claimed worker id resolves to an active registered
watchman (whose stored `nameLower` is the normalisation of its registered
name), confirm fails with `IdentityMismatch` exactly when the claimed
name, trimmed and lowercased, differs from the registered name under the
same normalisation; and on a mismatch the state is unchanged. -/
theorem c8_identity_mismatch (s : St) (oid sid nm : String) (now : Nat) (w : Watchman)
    (h1 : oid ≠ "") (h2 : sid ≠ "") (h3 : nm ≠ "")
    (h4 : validIds.contains sid = true)
    (h5 : s.watchmen.find? (fun x => x.securityId == sid && x.active) = some w)
    (h6 : w.nameLower = normName w.name) :
    ((P0.confirm s oid sid nm now).2 = .identityMismatch ↔ normName nm ≠ normName w.name)
    ∧ (normName nm ≠ normName w.name → P0.confirm s oid sid nm now = (s, .identityMismatch)) := by
  have hg : ¬(oid = "" ∨ sid = "" ∨ nm = "") := by
    push_neg
    exact ⟨h1, h2, h3⟩
  rw [P0.confirm_eq_resolved s oid sid nm now w hg h4 h5]
  cases hnm : (w.nameLower == normName nm) with
  | false =>
    have hne : normName nm ≠ normName w.name := by
      rw [beq_eq_false_iff_ne, h6] at hnm
      exact fun e => hnm e.symm
    simp only [Bool.not_false, if_true]
    exact ⟨iff_of_true (by trivial) hne, fun _ => by trivial⟩
  | true =>
    have heq : normName nm = normName w.name := by
      rw [beq_iff_eq] at hnm
      rw [← h6, hnm]
    simp only [Bool.not_true, Bool.false_eq_true, if_false]
    constructor
    · constructor
      · intro hres
        exfalso
        revert hres
        cases s.leases.find? (fun b => b.orderId == oid && b.securityId == sid
            && b.status == LeaseSt.assigned) with
        | none => simp
        | some a =>
          by_cases httl : 300000 < now - a.assignedAt
          · simp [httl]
          · simp [httl]
      · intro hcontra
        exact absurd heq hcontra
    · intro hcontra
      exact absurd heq hcontra

/-- State with one active registered watchman named Alice. -/
def c8State : St :=
  ⟨[⟨"Alice", "alice", "9876543210", "", "1", true⟩],
   [⟨0, "O1", "1", .assigned, 0, none, none, none, none⟩],
   [("1", ⟨1, 0, 0⟩)], [⟨"O1", "completed"⟩], 1⟩

theorem c8_witness :
    ((P0.confirm c8State "O1" "1" " Bob " 0).2 = .identityMismatch
      ↔ normName " Bob " ≠ normName "Alice")
    ∧ P0.confirm c8State "O1" "1" " Bob " 0
        = (c8State, .identityMismatch) :=
  ⟨(c8_identity_mismatch c8State "O1" "1" " Bob " 0
      ⟨"Alice", "alice", "9876543210", "", "1", true⟩
      (by decide) (by decide) (by decide) (by decide) (by decide) (by decide)).1,
   (c8_identity_mismatch c8State "O1" "1" " Bob " 0
      ⟨"Alice", "alice", "9876543210", "", "1", true⟩
      (by decide) (by decide) (by decide) (by decide) (by decide) (by decide)).2 (by decide)⟩

theorem effRound_eq_round (c a : Nat) (ha : 0 < a) :
    (effRound c a : ℤ) = round ((100 * c : ℚ) / a) := by
  have ha0 : (a : ℚ) ≠ 0 := Nat.cast_ne_zero.mpr (Nat.pos_iff_ne_zero.mp ha)
  rw [round_eq]
  have h1 : (100 * c : ℚ) / a + 1 / 2 = ((200 * c + a : ℕ) : ℚ) / ((2 * a : ℕ) : ℚ) := by
    push_cast
    field_simp
    ring
  rw [h1, Rat.floor_natCast_div_natCast, effRound]
  push_cast [Int.ofNat_tdiv]
  rfl

/-- Claim C9: the efficiency reported by the stats endpoint is 0 when the
worker's totalAssigned counter is 0, and otherwise equals
round(100 × totalConfirmed / totalAssigned), rounding to the nearest
integer. -/
theorem c9_efficiency_formula (s : St) (sid : String) (now : Nat) (v : StatsView)
    (h : P0.statsFor s sid now = some v) :
    (v.efficiency : ℤ) =
      if (getStat s.stats sid).totalAssigned = 0 then 0
      else round ((100 * (getStat s.stats sid).totalConfirmed : ℚ)
        / (getStat s.stats sid).totalAssigned) := by
  unfold P0.statsFor at h
  split at h
  · simp at h
  · split at h
    · simp at h
    · simp only [Option.some_inj] at h
      subst h
      by_cases ha : (getStat s.stats sid).totalAssigned = 0
      · rw [if_pos ha]
        show ((if 0 < (getStat s.stats sid).totalAssigned then
          effRound (getStat s.stats sid).totalConfirmed (getStat s.stats sid).totalAssigned
          else 0 : Nat) : ℤ) = 0
        rw [ha]
        simp
      · rw [if_neg ha]
        have hpos : 0 < (getStat s.stats sid).totalAssigned := Nat.pos_of_ne_zero ha
        show ((if 0 < (getStat s.stats sid).totalAssigned then
          effRound (getStat s.stats sid).totalConfirmed (getStat s.stats sid).totalAssigned
          else 0 : Nat) : ℤ) = _
        rw [if_pos hpos]
        exact effRound_eq_round _ _ hpos

/-- State whose stored stats for watchman 1 read 4 assigned and 3
confirmed, so the reported efficiency is 75. -/
def c9State : St :=
  ⟨[⟨"Alice", "alice", "9876543210", "", "1", true⟩], [], [("1", ⟨4, 3, 0⟩)], [], 0⟩

theorem c9_witness :
    ((75 : Nat) : ℤ) =
      if (getStat c9State.stats "1").totalAssigned = 0 then 0
      else round ((100 * (getStat c9State.stats "1").totalConfirmed : ℚ)
        / (getStat c9State.stats "1").totalAssigned) :=
  c9_efficiency_formula c9State "1" 0 ⟨4, 3, 0, 0, 75⟩ (by decide)

theorem eq_of_mem_lid (l : List Lease) (hnd : (l.map Lease.lid).Nodup)
    (a c : Lease) (ha : a ∈ l) (hc : c ∈ l) (h : c.lid = a.lid) : c = a := by
  induction l with
  | nil => simp at ha
  | cons x rest ih =>
    rw [List.map_cons, List.nodup_cons] at hnd
    rcases List.mem_cons.mp ha with h1 | h1 <;> rcases List.mem_cons.mp hc with h2 | h2
    · rw [h1, h2]
    · exfalso
      apply hnd.1
      rw [← h1, ← h]
      exact lid_mem_of_mem _ _ h2
    · exfalso
      apply hnd.1
      rw [← h2, h]
      exact lid_mem_of_mem _ _ h1
    · exact ih hnd.2 h1 h2

theorem not_mem_updateLease_self (l : List Lease) (a : Lease) (g : Lease → Lease)
    (hnd : (l.map Lease.lid).Nodup) (ha : a ∈ l) ( _hg : ∀ x, (g x).lid = x.lid)
    (hga : g a ≠ a) : a ∉ updateLease l a.lid g := by
  induction l with
  | nil => simp at ha
  | cons x rest ih =>
    rw [List.map_cons, List.nodup_cons] at hnd
    cases hx : (x.lid == a.lid) with
    | true =>
      have hxa : x = a := eq_of_mem_lid (x :: rest)
        (by rw [List.map_cons, List.nodup_cons]; exact hnd) a x ha
        (List.mem_cons_self x rest) (beq_iff_eq.mp hx)
      rw [updateLease, if_pos hx]
      intro hmem
      rcases List.mem_cons.mp hmem with h | h
      · apply hga
        rw [hxa] at h
        exact h.symm
      · apply hnd.1
        rw [hxa, ← beq_iff_eq.mp hx, hxa]
        exact lid_mem_of_mem _ _ h
    | false =>
      have hxa : a ≠ x := by
        intro e
        rw [e] at hx
        simp at hx
      have ha' : a ∈ rest := by
        rcases List.mem_cons.mp ha with h | h
        · exact absurd h hxa
        · exact h
      rw [updateLease, if_neg (by simp [hx])]
      intro hmem
      rcases List.mem_cons.mp hmem with h | h
      · exact hxa h
      · exact ih hnd.2 ha' h

theorem eq_of_filter_len_le_one (l : List Lease) (p : Lease → Bool)
    (h : (l.filter p).length ≤ 1) (a b : Lease)
    (ha : a ∈ l) (hpa : p a = true) (hb : b ∈ l) (hpb : p b = true) : a = b := by
  have hfa : a ∈ l.filter p := List.mem_filter.mpr ⟨ha, hpa⟩
  have hfb : b ∈ l.filter p := List.mem_filter.mpr ⟨hb, hpb⟩
  cases hfl : l.filter p with
  | nil => rw [hfl] at hfa; simp at hfa
  | cons x xs =>
    cases xs with
    | nil =>
      rw [hfl] at hfa hfb
      rw [List.mem_singleton.mp hfa, List.mem_singleton.mp hfb]
    | cons y ys =>
      rw [hfl] at h
      simp at h

/-- Claim C6: a successful confirm turns the lease terminal, so an
identical retry fails with `LeaseNotFound` (the lookup matches only
`assigned`-status leases) and leaves the state untouched; across the two
calls the stats counters receive exactly one increment in total. -/
theorem c6_confirm_retry_safe (s : St) (oid sid nm : String) (t1 t2 : Nat) (s1 : St) (ct : Nat)
    (hn : (s.leases.map Lease.lid).Nodup)
    (hu : (s.leases.filter (fun b => b.orderId == oid && b.securityId == sid
      && b.status == LeaseSt.assigned)).length ≤ 1)
    (h : P0.confirm s oid sid nm t1 = (s1, .ok ct)) :
    P0.confirm s1 oid sid nm t2 = (s1, .leaseNotFound)
    ∧ statSum s1.stats = statSum s.stats + 1 := by
  unfold P0.confirm at h
  split at h
  · simp at h
  rename_i hguard
  split at h
  · simp at h
  rename_i hvd
  split at h
  · simp at h
  rename_i w hw
  split at h
  · simp at h
  rename_i hname
  split at h
  · simp at h
  rename_i a hfind
  split at h
  · simp at h
  rename_i httl
  rw [Prod.mk.injEq] at h
  obtain ⟨hs1, hct⟩ := h
  have haMem := List.mem_of_find?_eq_some hfind
  have haP := List.find?_some hfind
  simp only [Bool.and_eq_true, beq_iff_eq] at haP
  obtain ⟨⟨hao, has⟩, hast⟩ := haP
  have hv : validIds.contains sid = true := by
    simpa using hvd
  subst hs1
  set ct1 := (t1 - a.assignedAt) / 1000 with hct1
  set gC : Lease → Lease := fun l =>
    { l with status := .confirmed, confirmedAt := some t1, completionTime := some ct1 }
    with hgCdef
  have hnone : (updateSecurityStats
      { s with
        leases := confirmLease s.leases a.lid t1 ct1,
        orders := verifyOrder s.orders oid } sid .confirmedA).leases.find?
      (fun b => b.orderId == oid && b.securityId == sid
        && b.status == LeaseSt.assigned) = none := by
    show (confirmLease s.leases a.lid t1 ct1).find? _ = none
    rw [List.find?_eq_none]
    intro b hb hpb
    rcases mem_updateLease _ _ _ _ hb with h2 | ⟨c, hc, hci, hbc⟩
    · have hba : b = a := eq_of_filter_len_le_one s.leases _ hu b a h2 hpb
        haMem (by simp [hao, has, hast])
      rw [hba] at hb
      exact not_mem_updateLease_self s.leases a gC hn haMem (fun _ => rfl)
        (by
          intro e
          have : (gC a).status = a.status := by rw [e]
          rw [hast] at this
          simp [hgCdef] at this) hb
    · have hca : c = a := eq_of_mem_lid s.leases hn a c haMem hc hci
      rw [hbc, hca] at hpb
      simp [hgCdef] at hpb
  refine ⟨?_, ?_⟩
  · rw [P0.confirm_eq_resolved
      (updateSecurityStats
        { s with
          leases := confirmLease s.leases a.lid t1 ct1,
          orders := verifyOrder s.orders oid } sid .confirmedA)
      oid sid nm t2 w hguard hv hw]
    rw [if_neg hname, hnone]
  · show statSum (upsertStat s.stats sid (applyAction .confirmedA)) = statSum s.stats + 1
    exact statSum_upsert s.stats sid .confirmedA

/-- State with Alice holding one fresh assigned lease for O1. -/
def c6State : St :=
  ⟨[⟨"Alice", "alice", "9876543210", "", "1", true⟩],
   [⟨0, "O1", "1", .assigned, 0, none, none, none, none⟩],
   [("1", ⟨1, 0, 0⟩)], [⟨"O1", "completed"⟩], 1⟩

theorem c6_witness :
    P0.confirm (P0.confirm c6State "O1" "1" "alice" 10000).1 "O1" "1" "alice" 20000
      = ((P0.confirm c6State "O1" "1" "alice" 10000).1, .leaseNotFound)
    ∧ statSum (P0.confirm c6State "O1" "1" "alice" 10000).1.stats
      = statSum c6State.stats + 1 :=
  c6_confirm_retry_safe c6State "O1" "1" "alice" 10000 20000
    (P0.confirm c6State "O1" "1" "alice" 10000).1 10
    (by decide) (by decide) (by decide)

namespace P0

theorem freeId_smallest (used : List Nat) (sid : String) (h : freeId used = some sid) :
    ∀ j, 1 ≤ j → j < parseId sid → used.contains j = true := by
  intro j hj1 hj2
  unfold freeId at h
  cases h1 : used.contains 1 with
  | false =>
    rw [List.find?_cons_of_pos _ (by simp only [h1, Bool.not_false])] at h
    simp only [Option.map_some', Option.some_inj] at h
    rw [← h, parseId_toString 1 (by decide)] at hj2
    omega
  | true =>
    rw [List.find?_cons_of_neg _ (by simp only [h1, Bool.not_true]; exact Bool.false_ne_true)] at h
    cases h2 : used.contains 2 with
    | false =>
      rw [List.find?_cons_of_pos _ (by simp only [h2, Bool.not_false])] at h
      simp only [Option.map_some', Option.some_inj] at h
      rw [← h, parseId_toString 2 (by decide)] at hj2
      interval_cases j
      exact h1
    | true =>
      rw [List.find?_cons_of_neg _ (by simp only [h2, Bool.not_true]; exact Bool.false_ne_true)] at h
      cases h3 : used.contains 3 with
      | false =>
        rw [List.find?_cons_of_pos _ (by simp only [h3, Bool.not_false])] at h
        simp only [Option.map_some', Option.some_inj] at h
        rw [← h, parseId_toString 3 (by decide)] at hj2
        interval_cases j
        · exact h1
        · exact h2
      | true =>
        rw [List.find?_cons_of_neg _ (by simp only [h3, Bool.not_true]; exact Bool.false_ne_true)] at h
        cases h4 : used.contains 4 with
        | false =>
          rw [List.find?_cons_of_pos _ (by simp only [h4, Bool.not_false])] at h
          simp only [Option.map_some', Option.some_inj] at h
          rw [← h, parseId_toString 4 (by decide)] at hj2
          interval_cases j
          · exact h1
          · exact h2
          · exact h3
        | true =>
          rw [List.find?_cons_of_neg _ (by simp only [h4, Bool.not_true]; exact Bool.false_ne_true)] at h
          cases h5 : used.contains 5 with
          | false =>
            rw [List.find?_cons_of_pos _ (by simp only [h5, Bool.not_false])] at h
            simp only [Option.map_some', Option.some_inj] at h
            rw [← h, parseId_toString 5 (by decide)] at hj2
            interval_cases j
            · exact h1
            · exact h2
            · exact h3
            · exact h4
          | true =>
            rw [List.find?_cons_of_neg _ (by simp only [h5, Bool.not_true]; exact Bool.false_ne_true)] at h
            simp at h

end P0

/-- Claim C10: a successful registration allocates the smallest
identifier among "1".."5" whose numeric value no current watchman holds
(so freed identifiers would be reused lowest-first), and when every
identifier is in use registration fails, creating neither a watchman nor
a stats record. -/
theorem c10_register_allocation (s : St) (nm ct em : String) :
    (∀ (s' : St) (sid : String), P0.register s nm ct em = (s', .ok sid) →
      sid ∈ validIds
      ∧ (s.watchmen.any (fun w => w.securityId == sid)) = false
      ∧ (∀ j, 1 ≤ j → j < parseId sid →
          (s.watchmen.any (fun w => parseId w.securityId == j)) = true))
    ∧ ((∀ i ∈ ([1, 2, 3, 4, 5] : List Nat),
          (s.watchmen.map (fun w => parseId w.securityId)).contains i = true) →
        (P0.register s nm ct em).1 = s
        ∧ ∀ sid, (P0.register s nm ct em).2 ≠ .ok sid) := by
  constructor
  · intro s' sid h
    unfold P0.register at h
    split at h
    · simp at h
    split at h
    · simp at h
    split at h
    · simp at h
    rename_i sid0 hf
    rw [Prod.mk.injEq] at h
    obtain ⟨hst, hok⟩ := h
    have hsid0 : sid0 = sid := by simpa using hok
    subst hsid0
    obtain ⟨i, hi5, hsid, hfree⟩ := P0.freeId_some _ _ hf
    refine ⟨hsid ▸ P0.toString_mem_validIds i hi5, ?_, ?_⟩
    · rw [List.any_eq_false]
      intro w hw
      simp only [beq_iff_eq]
      intro e
      have hin : i ∈ s.watchmen.map (fun w => parseId w.securityId) := by
        have hpe : parseId w.securityId = i := by
          rw [e, hsid, P0.parseId_toString i hi5]
        exact hpe ▸ List.mem_map_of_mem _ hw
      have hnin : i ∉ s.watchmen.map (fun w => parseId w.securityId) := by
        simpa using hfree
      exact hnin hin
    · intro j hj1 hj2
      have hcj := P0.freeId_smallest _ _ hf j hj1 hj2
      rw [List.any_eq_true]
      have hj : j ∈ s.watchmen.map (fun w => parseId w.securityId) := by
        simpa using hcj
      rcases List.mem_map.mp hj with ⟨w, hw, hwe⟩
      exact ⟨w, hw, by simp [hwe]⟩
  · intro hall
    have hnone : P0.freeId (s.watchmen.map (fun w => parseId w.securityId)) = none := by
      unfold P0.freeId
      rw [List.find?_eq_none.mpr]
      · rfl
      · intro i hi
        simp only [hall i hi, Bool.not_true]
        exact Bool.false_ne_true
    unfold P0.register
    split
    · exact ⟨rfl, by intro sid; simp⟩
    split
    · exact ⟨rfl, by intro sid; simp⟩
    rw [hnone]
    exact ⟨rfl, by intro sid; simp⟩

/-- State where identifiers "1" and "3" are taken, so "2" is the lowest
free one. -/
def c10State : St :=
  ⟨[⟨"Alice", "alice", "9876543210", "", "1", true⟩,
    ⟨"Carol", "carol", "9876543210", "", "3", true⟩],
   [], [("1", ⟨0, 0, 0⟩), ("3", ⟨0, 0, 0⟩)], [], 0⟩

/-- State where all five identifiers are taken. -/
def c10Full : St :=
  ⟨[⟨"A1", "a1", "9876543210", "", "1", true⟩,
    ⟨"A2", "a2", "9876543210", "", "2", true⟩,
    ⟨"A3", "a3", "9876543210", "", "3", true⟩,
    ⟨"A4", "a4", "9876543210", "", "4", true⟩,
    ⟨"A5", "a5", "9876543210", "", "5", true⟩],
   [], [], [], 0⟩

theorem c10_witness :
    ("2" ∈ validIds
      ∧ (c10State.watchmen.any (fun w => parseId w.securityId == 1)) = true)
    ∧ ((P0.register c10Full "Eve" "9876543210" "").1 = c10Full
      ∧ (P0.register c10Full "Eve" "9876543210" "").2 ≠ .ok "1") :=
  ⟨⟨((c10_register_allocation c10State "Bob" "9876543210" "").1
      (P0.register c10State "Bob" "9876543210" "").1 "2" (by decide)).1,
    (((c10_register_allocation c10State "Bob" "9876543210" "").1
      (P0.register c10State "Bob" "9876543210" "").1 "2" (by decide)).2.2 1
      (by decide) (by decide))⟩,
   ⟨((c10_register_allocation c10Full "Eve" "9876543210" "").2 (by decide)).1,
    ((c10_register_allocation c10Full "Eve" "9876543210" "").2 (by decide)).2 "1"⟩⟩

theorem find?_lid_append_of_isSome (l : List Lease) (L : Lease) (lid : Nat)
    (h : (l.find? (fun b => b.lid == lid)).isSome) :
    (l ++ [L]).find? (fun b => b.lid == lid) = l.find? (fun b => b.lid == lid) := by
  rw [List.find?_append]
  cases hf : l.find? (fun b => b.lid == lid) with
  | none => rw [hf] at h; simp at h
  | some q => simp

theorem find?_lid_isSome (l : List Lease) (a : Lease) (ha : a ∈ l) :
    (l.find? (fun b => b.lid == a.lid)).isSome := by
  rw [List.find?_isSome]
  exact ⟨a, ha, by simp⟩

theorem leaseStatus_expireLease (l : List Lease) (a : Lease) (now : Nat) (ha : a ∈ l) :
    leaseStatus (expireLease l a.lid now) a.lid = some LeaseSt.expired := by
  unfold leaseStatus expireLease
  rw [find?_lid_updateLease_self l a.lid
    (fun x => { x with status := LeaseSt.expired, expiredAt := some now }) (fun _ => rfl)]
  cases hf : l.find? (fun b => b.lid == a.lid) with
  | none =>
    exfalso
    have h2 := List.find?_eq_none.mp hf a ha
    simp at h2
  | some q => simp

theorem find?_lid_expireLease_isSome (l : List Lease) (a : Lease) (now : Nat) (ha : a ∈ l) :
    ((expireLease l a.lid now).find? (fun b => b.lid == a.lid)).isSome := by
  unfold expireLease
  rw [find?_lid_updateLease_self l a.lid
    (fun x => { x with status := LeaseSt.expired, expiredAt := some now }) (fun _ => rfl)]
  have hs := find?_lid_isSome l a ha
  cases hf : l.find? (fun b => b.lid == a.lid) with
  | none => rw [hf] at hs; simp at hs
  | some q => simp

theorem leaseStatus_P0_reassign (s : St) (o e : String) (n : Nat) (lid : Nat)
    (h : (s.leases.find? (fun b => b.lid == lid)).isSome) :
    leaseStatus (P0.reassignOrder s o e n).leases lid = leaseStatus s.leases lid := by
  rw [P0.reassignOrder_eq]
  cases hlb : leastBy (fun w => pendingCount s.leases w.securityId n)
      (s.watchmen.filter (fun w => w.active && !(w.securityId == e))) with
  | none => rfl
  | some w =>
    show leaseStatus (s.leases ++ [_]) lid = leaseStatus s.leases lid
    unfold leaseStatus
    rw [find?_lid_append_of_isSome _ _ _ h]

theorem leaseStatus_SC_reassign (s : St) (o e : String) (n : Nat) (lid : Nat)
    (h : (s.leases.find? (fun b => b.lid == lid)).isSome) :
    leaseStatus (SC.reassignOrder s o e n).leases lid = leaseStatus s.leases lid := by
  rw [SC.reassignSC_eq]
  cases hfl : s.watchmen.filter (fun w => w.active && !(w.securityId == e)) with
  | nil => rfl
  | cons w ws =>
    show leaseStatus (s.leases ++ [_]) lid = leaseStatus s.leases lid
    unfold leaseStatus
    rw [find?_lid_append_of_isSome _ _ _ h]

theorem totalExpired_upsert_assignedA (l : List (String × Stat)) (s' sid : String) :
    (getStat (upsertStat l s' (applyAction .assignedA)) sid).totalExpired
      = (getStat l sid).totalExpired := by
  by_cases h : sid = s'
  · rw [h, getStat_upsert_self]
    rfl
  · rw [getStat_upsert_other _ _ _ _ h]

theorem totalExpired_P0_reassign (s : St) (o e : String) (n : Nat) :
    (getStat (P0.reassignOrder s o e n).stats e).totalExpired
      = (getStat s.stats e).totalExpired + (if hasOther s e then 1 else 0) := by
  rw [P0.reassignOrder_eq]
  cases hlb : leastBy (fun w => pendingCount s.leases w.securityId n)
      (s.watchmen.filter (fun w => w.active && !(w.securityId == e))) with
  | none =>
    have hemp := (leastBy_eq_none _ _).mp hlb
    have hho : hasOther s e = false := by
      unfold hasOther
      rw [List.any_eq_false]
      intro w hw
      have h2 := List.filter_eq_nil_iff.mp hemp w hw
      simpa using h2
    rw [hho]
    simp
  | some w =>
    have hwmem := leastBy_mem _ _ _ hlb
    rw [List.mem_filter] at hwmem
    have hho : hasOther s e = true := by
      unfold hasOther
      rw [List.any_eq_true]
      exact ⟨w, hwmem.1, hwmem.2⟩
    rw [hho]
    show (getStat (upsertStat (upsertStat s.stats w.securityId (applyAction .assignedA))
      e (applyAction .expiredA)) e).totalExpired = (getStat s.stats e).totalExpired + 1
    rw [getStat_upsert_self]
    have h3 := totalExpired_upsert_assignedA s.stats w.securityId e
    simp only [applyAction]
    omega

theorem totalExpired_SC_reassign (s : St) (o e : String) (n : Nat) (sid : String) :
    (getStat (SC.reassignOrder s o e n).stats sid).totalExpired
      = (getStat s.stats sid).totalExpired := by
  rw [SC.reassignSC_eq]
  cases hfl : s.watchmen.filter (fun w => w.active && !(w.securityId == e)) with
  | nil => rfl
  | cons w ws =>
    show (getStat (upsertStat s.stats w.securityId (applyAction .assignedA)) sid).totalExpired = _
    exact totalExpired_upsert_assignedA s.stats w.securityId sid

theorem leaseStatus_expireLeaseOnly (l : List Lease) (a : Lease) (ha : a ∈ l) :
    leaseStatus (expireLeaseOnly l a.lid) a.lid = some LeaseSt.expired := by
  unfold leaseStatus expireLeaseOnly
  rw [find?_lid_updateLease_self l a.lid
    (fun x => { x with status := LeaseSt.expired }) (fun _ => rfl)]
  cases hf : l.find? (fun b => b.lid == a.lid) with
  | none =>
    exfalso
    have h2 := List.find?_eq_none.mp hf a ha
    simp at h2
  | some q => simp

namespace SA

theorem confirmSA_eq_resolved (s : St) (oid sid nm : String) (now : Nat) (w : Watchman)
    (hg : ¬(oid = "" ∨ sid = "" ∨ nm = ""))
    (hw : s.watchmen.find? (fun x => x.securityId == sid && x.active) = some w) :
    confirm s oid sid nm now =
      if !(w.nameLower == normName nm) then (s, .verifyFailed)
      else
        match s.leases.find? (fun b => b.orderId == oid && b.securityId == sid
            && b.status == LeaseSt.assigned) with
        | none => (s, .assignmentNotFound)
        | some a =>
          if 300 < (now - a.assignedAt) / 1000 then
            ({ s with leases := expireLeaseOnly s.leases a.lid }, .expired)
          else
            (updateSecurityStats
              { s with
                leases := confirmLease s.leases a.lid now ((now - a.assignedAt) / 1000),
                orders := verifyOrder s.orders oid } sid .confirmedA,
              .ok ((now - a.assignedAt) / 1000)) := by
  unfold confirm
  rw [if_neg hg, hw]

end SA

/-- Claim C2 (amended): a confirm that resolves a matching assigned lease
older than the 300-second TTL fails with the lease-expired error and
transitions that lease to `expired` in every variant, but the further
side effects differ per variant.  The first `server.js` variant stops
there: no reassignment is invoked and no counter changes (the whole
rest of the database is untouched).  The full `server.js` variant
invokes the reassignment procedure for the order excluding that worker
and increments the worker's `totalExpired` unconditionally.  `part_000`
invokes the same reassignment procedure, but its increment lives inside
that procedure, so `totalExpired` grows exactly when another active
worker exists (see the counterexample). -/
theorem c2_confirm_expired_amended (s : St) (oid sid nm : String) (now : Nat)
    (w : Watchman) (a : Lease)
    (h1 : oid ≠ "") (h2 : sid ≠ "") (h3 : nm ≠ "")
    (h4 : validIds.contains sid = true)
    (h5 : s.watchmen.find? (fun x => x.securityId == sid && x.active) = some w)
    (h6 : (w.nameLower == normName nm) = true)
    (h7 : s.leases.find? (fun b => b.orderId == oid && b.securityId == sid
      && b.status == LeaseSt.assigned) = some a)
    (h8 : 300000 < now - a.assignedAt)
    (h9 : 300 < (now - a.assignedAt) / 1000) :
    (P0.confirm s oid sid nm now
        = (P0.reassignOrder { s with leases := expireLease s.leases a.lid now } oid sid now,
          .leaseExpired)
      ∧ leaseStatus (P0.confirm s oid sid nm now).1.leases a.lid = some LeaseSt.expired
      ∧ (getStat (P0.confirm s oid sid nm now).1.stats sid).totalExpired
          = (getStat s.stats sid).totalExpired + (if hasOther s sid then 1 else 0))
    ∧ (SC.confirm s oid sid nm now
        = (updateSecurityStats
            (SC.reassignOrder { s with leases := expireLease s.leases a.lid now } oid sid now)
            sid .expiredA, .leaseExpired)
      ∧ leaseStatus (SC.confirm s oid sid nm now).1.leases a.lid = some LeaseSt.expired
      ∧ (getStat (SC.confirm s oid sid nm now).1.stats sid).totalExpired
          = (getStat s.stats sid).totalExpired + 1)
    ∧ (SA.confirm s oid sid nm now
        = ({ s with leases := expireLeaseOnly s.leases a.lid }, .expired)
      ∧ leaseStatus (SA.confirm s oid sid nm now).1.leases a.lid = some LeaseSt.expired
      ∧ (SA.confirm s oid sid nm now).1.stats = s.stats
      ∧ (SA.confirm s oid sid nm now).1.watchmen = s.watchmen
      ∧ (SA.confirm s oid sid nm now).1.orders = s.orders) := by
  have hg : ¬(oid = "" ∨ sid = "" ∨ nm = "") := by
    push_neg
    exact ⟨h1, h2, h3⟩
  have hnm : ¬((!(w.nameLower == normName nm)) = true) := by
    rw [h6]
    simp
  have haMem := List.mem_of_find?_eq_some h7
  have haP := List.find?_some h7
  simp only [Bool.and_eq_true, beq_iff_eq] at haP
  obtain ⟨⟨hao, has⟩, hast⟩ := haP
  have hsomeE : (({ s with leases := expireLease s.leases a.lid now } : St).leases.find?
      (fun b => b.lid == a.lid)).isSome := find?_lid_expireLease_isSome s.leases a now haMem
  have heq1 : P0.confirm s oid sid nm now
      = (P0.reassignOrder { s with leases := expireLease s.leases a.lid now } oid sid now,
        .leaseExpired) := by
    rw [P0.confirm_eq_resolved s oid sid nm now w hg h4 h5, if_neg hnm, h7]
    show (if 300000 < now - a.assignedAt then (P0.expireAndReassign s a now, ConfirmRes.leaseExpired)
      else (updateSecurityStats
        { s with
          leases := confirmLease s.leases a.lid now ((now - a.assignedAt) / 1000),
          orders := verifyOrder s.orders oid } sid .confirmedA,
        ConfirmRes.ok ((now - a.assignedAt) / 1000))) = _
    rw [if_pos h8, P0.expireAndReassign_eq, hao, has]
  have heq2 : SC.confirm s oid sid nm now
      = (updateSecurityStats
          (SC.reassignOrder { s with leases := expireLease s.leases a.lid now } oid sid now)
          sid .expiredA, .leaseExpired) := by
    rw [SC.confirmSC_eq_resolved s oid sid nm now w hg h5, if_neg hnm, h7]
    show (if 300000 < now - a.assignedAt then (updateSecurityStats
        (SC.reassignOrder { s with leases := expireLease s.leases a.lid now } oid sid now)
        sid .expiredA, ConfirmRes.leaseExpired)
      else (updateSecurityStats
        { s with
          leases := confirmLease s.leases a.lid now ((now - a.assignedAt) / 1000),
          orders := verifyOrder s.orders oid } sid .confirmedA,
        ConfirmRes.ok ((now - a.assignedAt) / 1000))) = _
    rw [if_pos h8]
  have heq3 : SA.confirm s oid sid nm now
      = ({ s with leases := expireLeaseOnly s.leases a.lid }, .expired) := by
    rw [SA.confirmSA_eq_resolved s oid sid nm now w hg h5, if_neg hnm, h7]
    show (if 300 < (now - a.assignedAt) / 1000 then
        ({ s with leases := expireLeaseOnly s.leases a.lid }, SA.ConfirmResA.expired)
      else (updateSecurityStats
        { s with
          leases := confirmLease s.leases a.lid now ((now - a.assignedAt) / 1000),
          orders := verifyOrder s.orders oid } sid .confirmedA,
        SA.ConfirmResA.ok ((now - a.assignedAt) / 1000))) = _
    rw [if_pos h9]
  refine ⟨⟨heq1, ?_, ?_⟩, ⟨heq2, ?_, ?_⟩, heq3, ?_, by rw [heq3], by rw [heq3], by rw [heq3]⟩
  · rw [heq1]
    show leaseStatus (P0.reassignOrder
      { s with leases := expireLease s.leases a.lid now } oid sid now).leases a.lid = _
    rw [leaseStatus_P0_reassign _ _ _ _ _ hsomeE]
    exact leaseStatus_expireLease s.leases a now haMem
  · rw [heq1]
    show (getStat (P0.reassignOrder
      { s with leases := expireLease s.leases a.lid now } oid sid now).stats sid).totalExpired = _
    exact totalExpired_P0_reassign { s with leases := expireLease s.leases a.lid now } oid sid now
  · rw [heq2]
    show leaseStatus (updateSecurityStats
      (SC.reassignOrder { s with leases := expireLease s.leases a.lid now } oid sid now)
      sid .expiredA).leases a.lid = _
    show leaseStatus (SC.reassignOrder
      { s with leases := expireLease s.leases a.lid now } oid sid now).leases a.lid = _
    rw [leaseStatus_SC_reassign _ _ _ _ _ hsomeE]
    exact leaseStatus_expireLease s.leases a now haMem
  · rw [heq2]
    show (getStat (upsertStat (SC.reassignOrder
      { s with leases := expireLease s.leases a.lid now } oid sid now).stats sid
      (applyAction .expiredA)) sid).totalExpired = _
    rw [getStat_upsert_self]
    have h9 := totalExpired_SC_reassign
      { s with leases := expireLease s.leases a.lid now } oid sid now sid
    show ((applyAction .expiredA (getStat (SC.reassignOrder
      { s with leases := expireLease s.leases a.lid now } oid sid now).stats sid)).totalExpired) = _
    simp only [applyAction]
    have h10 : (getStat ({ s with leases := expireLease s.leases a.lid now } : St).stats
        sid).totalExpired = (getStat s.stats sid).totalExpired := rfl
    omega
  · rw [heq3]
    exact leaseStatus_expireLeaseOnly s.leases a haMem

/-- State with a single active watchman holding a stale assigned lease:
reassignment away from them finds nobody. -/
def c2State : St :=
  ⟨[⟨"Alice", "alice", "9876543210", "", "1", true⟩],
   [⟨0, "O1", "1", .assigned, 0, none, none, none, none⟩],
   [("1", ⟨1, 0, 0⟩)], [⟨"O1", "completed"⟩], 1⟩

/-- Claim C2 counterexample: in `part_000`, a late confirm with a
single-worker pool fails with `LeaseExpired` and expires the lease, but
the worker's `totalExpired` stays 0 instead of being incremented, because
the increment sits inside the reassignment procedure, which returns
early when the exclusion empties the pool. -/
theorem c2_counterexample :
    (P0.confirm c2State "O1" "1" "alice" 301001).2 = .leaseExpired
    ∧ leaseStatus (P0.confirm c2State "O1" "1" "alice" 301001).1.leases 0
        = some LeaseSt.expired
    ∧ (getStat (P0.confirm c2State "O1" "1" "alice" 301001).1.stats "1").totalExpired = 0 := by
  refine ⟨?_, ?_, ?_⟩ <;> decide

/-- State with two active watchmen, so the late-confirm path can reassign
and the part_000 increment fires. -/
def c2State2 : St :=
  ⟨[⟨"Alice", "alice", "9876543210", "", "1", true⟩,
    ⟨"Bob", "bob", "9876543210", "", "2", true⟩],
   [⟨0, "O1", "1", .assigned, 0, none, none, none, none⟩],
   [("1", ⟨1, 0, 0⟩), ("2", ⟨0, 0, 0⟩)], [⟨"O1", "completed"⟩], 1⟩

theorem c2_witness :
    (P0.confirm c2State2 "O1" "1" "alice" 400000
        = (P0.reassignOrder
            { c2State2 with
              leases := expireLease c2State2.leases 0 400000 } "O1" "1" 400000,
          .leaseExpired)
      ∧ leaseStatus (P0.confirm c2State2 "O1" "1" "alice" 400000).1.leases 0
          = some LeaseSt.expired
      ∧ (getStat (P0.confirm c2State2 "O1" "1" "alice" 400000).1.stats "1").totalExpired
          = (getStat c2State2.stats "1").totalExpired
            + (if hasOther c2State2 "1" then 1 else 0))
    ∧ (SC.confirm c2State2 "O1" "1" "alice" 400000
        = (updateSecurityStats
            (SC.reassignOrder
              { c2State2 with
                leases := expireLease c2State2.leases 0 400000 } "O1" "1" 400000)
            "1" .expiredA, .leaseExpired)
      ∧ leaseStatus (SC.confirm c2State2 "O1" "1" "alice" 400000).1.leases 0
          = some LeaseSt.expired
      ∧ (getStat (SC.confirm c2State2 "O1" "1" "alice" 400000).1.stats "1").totalExpired
          = (getStat c2State2.stats "1").totalExpired + 1)
    ∧ (SA.confirm c2State2 "O1" "1" "alice" 400000
        = ({ c2State2 with leases := expireLeaseOnly c2State2.leases 0 }, .expired)
      ∧ leaseStatus (SA.confirm c2State2 "O1" "1" "alice" 400000).1.leases 0
          = some LeaseSt.expired
      ∧ (SA.confirm c2State2 "O1" "1" "alice" 400000).1.stats = c2State2.stats
      ∧ (SA.confirm c2State2 "O1" "1" "alice" 400000).1.watchmen = c2State2.watchmen
      ∧ (SA.confirm c2State2 "O1" "1" "alice" 400000).1.orders = c2State2.orders) :=
  c2_confirm_expired_amended c2State2 "O1" "1" "alice" 400000
    ⟨"Alice", "alice", "9876543210", "", "1", true⟩
    ⟨0, "O1", "1", .assigned, 0, none, none, none, none⟩
    (by decide) (by decide) (by decide) (by decide) (by decide) (by decide)
    (by decide) (by decide) (by decide)

namespace P0

theorem reassignOrder_watchmen (s : St) (o e : String) (n : Nat) :
    (reassignOrder s o e n).watchmen = s.watchmen := by
  rw [reassignOrder_eq]
  cases hlb : leastBy (fun w => pendingCount s.leases w.securityId n)
      (s.watchmen.filter (fun w => w.active && !(w.securityId == e))) <;> rfl

theorem reassignOrder_nextId_le (s : St) (o e : String) (n : Nat) :
    s.nextId ≤ (reassignOrder s o e n).nextId := by
  rw [reassignOrder_eq]
  cases hlb : leastBy (fun w => pendingCount s.leases w.securityId n)
      (s.watchmen.filter (fun w => w.active && !(w.securityId == e)))
  · exact Nat.le_refl _
  · exact Nat.le_succ _

theorem expireAndReassign_watchmen (s : St) (a : Lease) (now : Nat) :
    (expireAndReassign s a now).watchmen = s.watchmen := by
  rw [expireAndReassign_eq]
  exact reassignOrder_watchmen _ _ _ _

theorem nodup_expireAndReassign (s : St) (a : Lease) (now : Nat)
    (hnd : (s.leases.map Lease.lid).Nodup)
    (hlt : ∀ b ∈ s.leases, b.lid < s.nextId) :
    (((expireAndReassign s a now).leases.map Lease.lid).Nodup)
    ∧ (∀ b ∈ (expireAndReassign s a now).leases, b.lid < (expireAndReassign s a now).nextId) := by
  rw [expireAndReassign_eq, reassignOrder_eq]
  have hmap : (expireLease s.leases a.lid now).map Lease.lid = s.leases.map Lease.lid :=
    map_lid_updateLease _ _ _ (fun _ => rfl)
  have hltE : ∀ b ∈ expireLease s.leases a.lid now, b.lid < s.nextId := by
    intro b hb
    rcases mem_updateLease _ _ _ _ hb with h | ⟨c, hc, hci, hbc⟩
    · exact hlt b h
    · rw [hbc]
      exact hlt c hc
  cases hlb : leastBy (fun w => pendingCount (expireLease s.leases a.lid now) w.securityId now)
      (s.watchmen.filter (fun w => w.active && !(w.securityId == a.securityId))) with
  | none => exact ⟨hmap ▸ hnd, hltE⟩
  | some w =>
    constructor
    · show (((expireLease s.leases a.lid now) ++ [_]).map Lease.lid).Nodup
      rw [List.map_append, hmap, List.nodup_append]
      refine ⟨hnd, by simp, ?_⟩
      intro x hx
      have hxlt : x < s.nextId := by
        rcases List.mem_map.mp hx with ⟨b, hb, hbx⟩
        exact hbx ▸ hlt b hb
      simp only [List.map_cons, List.map_nil, List.mem_singleton]
      intro e
      rw [e] at hxlt
      exact absurd hxlt (lt_irrefl _)
    · intro b hb
      show b.lid < s.nextId + 1
      rcases List.mem_append.mp hb with h | h
      · exact Nat.lt_succ_of_lt (hltE b h)
      · rw [List.mem_singleton.mp h]
        exact Nat.lt_succ_self _

theorem mem_leases_expireAndReassign (s : St) (a : Lease) (now : Nat) (b : Lease)
    (hb : b ∈ s.leases) (hne : b.lid ≠ a.lid) :
    b ∈ (expireAndReassign s a now).leases := by
  rw [expireAndReassign_eq]
  apply reassignOrder_leases_sub
  exact mem_updateLease_of_ne _ _ _ _ hb hne

theorem find?_lid_expireAndReassign_other (s : St) (a : Lease) (now : Nat) (lid : Nat)
    (hne : lid ≠ a.lid) (hsome : (s.leases.find? (fun b => b.lid == lid)).isSome) :
    (expireAndReassign s a now).leases.find? (fun b => b.lid == lid)
      = s.leases.find? (fun b => b.lid == lid) := by
  rw [expireAndReassign_eq]
  have hupd : (expireLease s.leases a.lid now).find? (fun b => b.lid == lid)
      = s.leases.find? (fun b => b.lid == lid) :=
    find?_lid_updateLease_other _ _ _ _ (fun _ => rfl) hne
  rw [reassignOrder_eq]
  cases hlb : leastBy (fun w => pendingCount (expireLease s.leases a.lid now) w.securityId now)
      (s.watchmen.filter (fun w => w.active && !(w.securityId == a.securityId))) with
  | none => exact hupd
  | some w =>
    show ((expireLease s.leases a.lid now) ++ [_]).find? (fun (b : Lease) => b.lid == lid) = _
    rw [find?_lid_append_of_isSome _ _ _ (by rw [hupd]; exact hsome)]
    exact hupd

theorem leaseStatus_expireAndReassign_self (s : St) (a : Lease) (now : Nat)
    (ha : a ∈ s.leases) :
    leaseStatus (expireAndReassign s a now).leases a.lid = some LeaseSt.expired := by
  rw [expireAndReassign_eq]
  have hsome := find?_lid_expireLease_isSome s.leases a now ha
  rw [leaseStatus_P0_reassign _ _ _ _ _ hsome]
  exact leaseStatus_expireLease s.leases a now ha

theorem find?_lid_expireAndReassign_self_isSome (s : St) (a : Lease) (now : Nat)
    (ha : a ∈ s.leases) :
    ((expireAndReassign s a now).leases.find? (fun b => b.lid == a.lid)).isSome := by
  have h := leaseStatus_expireAndReassign_self s a now ha
  unfold leaseStatus at h
  cases hf : (expireAndReassign s a now).leases.find? (fun b => b.lid == a.lid) with
  | none => rw [hf] at h; simp at h
  | some q => simp

theorem totalExpired_P0_reassign_other (s : St) (o e : String) (n : Nat) (sid : String)
    (hne : sid ≠ e) :
    (getStat (reassignOrder s o e n).stats sid).totalExpired
      = (getStat s.stats sid).totalExpired := by
  rw [reassignOrder_eq]
  cases hlb : leastBy (fun w => pendingCount s.leases w.securityId n)
      (s.watchmen.filter (fun w => w.active && !(w.securityId == e))) with
  | none => rfl
  | some w =>
    show (getStat (upsertStat (upsertStat s.stats w.securityId (applyAction .assignedA))
      e (applyAction .expiredA)) sid).totalExpired = _
    rw [getStat_upsert_other _ _ _ _ hne]
    exact totalExpired_upsert_assignedA s.stats w.securityId sid

theorem totalExpired_expireAndReassign (s : St) (a : Lease) (now : Nat) (sid : String) :
    (getStat (expireAndReassign s a now).stats sid).totalExpired
      = (getStat s.stats sid).totalExpired
        + (if (a.securityId == sid && hasOther s a.securityId) then 1 else 0) := by
  rw [expireAndReassign_eq]
  by_cases hs : sid = a.securityId
  · subst hs
    have h1 := totalExpired_P0_reassign
      { s with leases := expireLease s.leases a.lid now } a.orderId a.securityId now
    have h2 : hasOther ({ s with leases := expireLease s.leases a.lid now } : St) a.securityId
        = hasOther s a.securityId := rfl
    rw [h2] at h1
    have h3 : (getStat ({ s with leases := expireLease s.leases a.lid now } : St).stats
        a.securityId).totalExpired = (getStat s.stats a.securityId).totalExpired := rfl
    rw [h3] at h1
    rw [h1]
    simp only [beq_self_eq_true, Bool.true_and]
  · have h1 := totalExpired_P0_reassign_other
      { s with leases := expireLease s.leases a.lid now } a.orderId a.securityId now sid hs
    have h3 : (getStat ({ s with leases := expireLease s.leases a.lid now } : St).stats
        sid).totalExpired = (getStat s.stats sid).totalExpired := rfl
    rw [h3] at h1
    rw [h1]
    have hb : (a.securityId == sid && hasOther s a.securityId) = false := by
      rw [Bool.and_eq_false_iff]
      left
      rw [beq_eq_false_iff_ne]
      exact fun e => hs e.symm
    rw [hb]
    simp

end P0

namespace P0

theorem sweepItem_eq (s : St) (a : Lease) (now : Nat) :
    sweepItem s a now = expireAndReassign s a now := rfl

theorem sweepLoop_spec (now : Nat) (pending : List Lease) :
    ∀ s : St,
    (∀ a ∈ pending, a ∈ s.leases) →
    ((s.leases.map Lease.lid).Nodup) →
    (∀ a ∈ s.leases, a.lid < s.nextId) →
    ((pending.map Lease.lid).Nodup) →
    ((pending.foldl (fun t b => sweepItem t b now) s).watchmen = s.watchmen
    ∧ (∀ lid : Nat, (s.leases.find? (fun b => b.lid == lid)).isSome →
        lid ∉ pending.map Lease.lid →
        (pending.foldl (fun t b => sweepItem t b now) s).leases.find? (fun b => b.lid == lid)
          = s.leases.find? (fun b => b.lid == lid))
    ∧ (∀ a ∈ pending, leaseStatus (pending.foldl (fun t b => sweepItem t b now) s).leases a.lid
        = some LeaseSt.expired)
    ∧ (∀ sid, (getStat (pending.foldl (fun t b => sweepItem t b now) s).stats sid).totalExpired
        = (getStat s.stats sid).totalExpired
          + (pending.filter (fun a => a.securityId == sid && hasOther s a.securityId)).length)) := by
  induction pending with
  | nil =>
    intro s _ _ _ _
    exact ⟨rfl, fun lid _ _ => rfl, fun a ha => absurd ha (List.not_mem_nil a),
      fun sid => by simp⟩
  | cons a rest ih =>
    intro s hsub hnd hlt hpnd
    have haS : a ∈ s.leases := hsub a (List.mem_cons_self a rest)
    have hpnd' : (rest.map Lease.lid).Nodup := by
      rw [List.map_cons, List.nodup_cons] at hpnd
      exact hpnd.2
    have hanotrest : a.lid ∉ rest.map Lease.lid := by
      rw [List.map_cons, List.nodup_cons] at hpnd
      exact hpnd.1
    have hfold : ((a :: rest).foldl (fun t b => sweepItem t b now) s)
        = rest.foldl (fun t b => sweepItem t b now) (expireAndReassign s a now) := rfl
    have hsub1 : ∀ b ∈ rest, b ∈ (expireAndReassign s a now).leases := by
      intro b hb
      have hbne : b.lid ≠ a.lid := by
        intro e
        exact hanotrest (e ▸ lid_mem_of_mem rest b hb)
      exact mem_leases_expireAndReassign s a now b (hsub b (List.mem_cons_of_mem a hb)) hbne
    have hndlt := nodup_expireAndReassign s a now hnd hlt
    obtain ⟨W, F, S, T⟩ := ih (expireAndReassign s a now) hsub1 hndlt.1 hndlt.2 hpnd'
    refine ⟨?_, ?_, ?_, ?_⟩
    · rw [hfold, W, expireAndReassign_watchmen]
    · intro lid hsome hnot
      have hne : lid ≠ a.lid := by
        intro e
        exact hnot (by rw [List.map_cons]; exact e ▸ List.mem_cons_self a.lid _)
      have hnotrest : lid ∉ rest.map Lease.lid := by
        intro hmem
        exact hnot (by rw [List.map_cons]; exact List.mem_cons_of_mem _ hmem)
      have hstep := find?_lid_expireAndReassign_other s a now lid hne hsome
      have hsome1 : ((expireAndReassign s a now).leases.find?
          (fun b => b.lid == lid)).isSome := by
        rw [hstep]; exact hsome
      rw [hfold, F lid hsome1 hnotrest, hstep]
    · intro b hb
      rcases List.mem_cons.mp hb with hba | hbr
      · subst hba
        have hstat1 := leaseStatus_expireAndReassign_self s b now haS
        have hsome1 := find?_lid_expireAndReassign_self_isSome s b now haS
        rw [hfold]
        unfold leaseStatus
        rw [F b.lid hsome1 hanotrest]
        exact hstat1
      · rw [hfold]
        exact S b hbr
    · intro sid
      have hho : ∀ x, hasOther (expireAndReassign s a now) x = hasOther s x := by
        intro x
        unfold hasOther
        rw [expireAndReassign_watchmen]
      have hfc : rest.filter (fun b => b.securityId == sid
            && hasOther (expireAndReassign s a now) b.securityId)
          = rest.filter (fun b => b.securityId == sid && hasOther s b.securityId) := by
        apply List.filter_congr
        intro b _
        rw [hho]
      have hhead := totalExpired_expireAndReassign s a now sid
      rw [hfold, T sid, hfc, hhead, List.filter_cons]
      cases hpa : (a.securityId == sid && hasOther s a.securityId) <;> simp [hpa] <;> omega

end P0

namespace SC

theorem cleanupItem_eq (st : St) (a : Lease) (now : Nat) :
    cleanupItem st a now
      = reassignOrder (updateSecurityStats
          { st with leases := expireLease st.leases a.lid now } a.securityId .expiredA)
          a.orderId a.securityId now := rfl

theorem reassignSC_watchmen (s : St) (o e : String) (n : Nat) :
    (reassignOrder s o e n).watchmen = s.watchmen := by
  rw [reassignSC_eq]
  cases hfl : (s.watchmen.filter (fun w => w.active && !(w.securityId == e))).head? <;> rfl

theorem reassignSC_leases_sub (s : St) (o e : String) (n : Nat) (b : Lease)
    (hb : b ∈ s.leases) : b ∈ (reassignOrder s o e n).leases := by
  rw [reassignSC_eq]
  cases hfl : (s.watchmen.filter (fun w => w.active && !(w.securityId == e))).head? with
  | none => exact hb
  | some w => exact List.mem_append_left _ hb

theorem cleanupItem_watchmen (s : St) (a : Lease) (now : Nat) :
    (cleanupItem s a now).watchmen = s.watchmen := by
  rw [cleanupItem_eq]
  rw [reassignSC_watchmen]
  rfl

theorem nodup_cleanupItem (s : St) (a : Lease) (now : Nat)
    (hnd : (s.leases.map Lease.lid).Nodup)
    (hlt : ∀ b ∈ s.leases, b.lid < s.nextId) :
    (((cleanupItem s a now).leases.map Lease.lid).Nodup)
    ∧ (∀ b ∈ (cleanupItem s a now).leases, b.lid < (cleanupItem s a now).nextId) := by
  rw [cleanupItem_eq, reassignSC_eq]
  have hmap : (expireLease s.leases a.lid now).map Lease.lid = s.leases.map Lease.lid :=
    map_lid_updateLease _ _ _ (fun _ => rfl)
  have hltE : ∀ b ∈ expireLease s.leases a.lid now, b.lid < s.nextId := by
    intro b hb
    rcases mem_updateLease _ _ _ _ hb with h | ⟨c, hc, hci, hbc⟩
    · exact hlt b h
    · rw [hbc]
      exact hlt c hc
  cases hfl : ((updateSecurityStats
      { s with leases := expireLease s.leases a.lid now } a.securityId
        StatAction.expiredA).watchmen.filter
      (fun w => w.active && !(w.securityId == a.securityId))).head? with
  | none => exact ⟨hmap ▸ hnd, hltE⟩
  | some w =>
    constructor
    · show (((expireLease s.leases a.lid now) ++ [_]).map Lease.lid).Nodup
      rw [List.map_append, hmap, List.nodup_append]
      refine ⟨hnd, by simp, ?_⟩
      intro x hx
      have hxlt : x < s.nextId := by
        rcases List.mem_map.mp hx with ⟨b, hb, hbx⟩
        exact hbx ▸ hlt b hb
      simp only [List.map_cons, List.map_nil, List.mem_singleton]
      intro e
      rw [e] at hxlt
      exact absurd hxlt (lt_irrefl _)
    · intro b hb
      show b.lid < s.nextId + 1
      rcases List.mem_append.mp hb with h | h
      · exact Nat.lt_succ_of_lt (hltE b h)
      · rw [List.mem_singleton.mp h]
        exact Nat.lt_succ_self _

theorem mem_leases_cleanupItem (s : St) (a : Lease) (now : Nat) (b : Lease)
    (hb : b ∈ s.leases) (hne : b.lid ≠ a.lid) :
    b ∈ (cleanupItem s a now).leases := by
  rw [cleanupItem_eq]
  apply reassignSC_leases_sub
  exact mem_updateLease_of_ne _ _ _ _ hb hne

theorem find?_lid_cleanupItem_other (s : St) (a : Lease) (now : Nat) (lid : Nat)
    (hne : lid ≠ a.lid) (hsome : (s.leases.find? (fun b => b.lid == lid)).isSome) :
    (cleanupItem s a now).leases.find? (fun b => b.lid == lid)
      = s.leases.find? (fun b => b.lid == lid) := by
  rw [cleanupItem_eq]
  have hupd : (expireLease s.leases a.lid now).find? (fun b => b.lid == lid)
      = s.leases.find? (fun b => b.lid == lid) :=
    find?_lid_updateLease_other _ _ _ _ (fun _ => rfl) hne
  rw [reassignSC_eq]
  cases hfl : ((updateSecurityStats
      { s with leases := expireLease s.leases a.lid now } a.securityId
        StatAction.expiredA).watchmen.filter
      (fun w => w.active && !(w.securityId == a.securityId))).head? with
  | none => exact hupd
  | some w =>
    show ((expireLease s.leases a.lid now) ++ [_]).find? (fun (b : Lease) => b.lid == lid) = _
    rw [find?_lid_append_of_isSome _ _ _ (by rw [hupd]; exact hsome)]
    exact hupd

theorem leaseStatus_cleanupItem_self (s : St) (a : Lease) (now : Nat)
    (ha : a ∈ s.leases) :
    leaseStatus (cleanupItem s a now).leases a.lid = some LeaseSt.expired := by
  rw [cleanupItem_eq]
  have hsome : ((updateSecurityStats
      { s with leases := expireLease s.leases a.lid now } a.securityId
        StatAction.expiredA).leases.find? (fun b => b.lid == a.lid)).isSome :=
    find?_lid_expireLease_isSome s.leases a now ha
  rw [leaseStatus_SC_reassign _ _ _ _ _ hsome]
  exact leaseStatus_expireLease s.leases a now ha

theorem find?_lid_cleanupItem_self_isSome (s : St) (a : Lease) (now : Nat)
    (ha : a ∈ s.leases) :
    ((cleanupItem s a now).leases.find? (fun b => b.lid == a.lid)).isSome := by
  have h := leaseStatus_cleanupItem_self s a now ha
  unfold leaseStatus at h
  cases hf : (cleanupItem s a now).leases.find? (fun b => b.lid == a.lid) with
  | none => rw [hf] at h; simp at h
  | some q => simp

theorem totalExpired_cleanupItem (s : St) (a : Lease) (now : Nat) (sid : String) :
    (getStat (cleanupItem s a now).stats sid).totalExpired
      = (getStat s.stats sid).totalExpired
        + (if (a.securityId == sid) then 1 else 0) := by
  rw [cleanupItem_eq]
  rw [totalExpired_SC_reassign]
  by_cases hs : sid = a.securityId
  · subst hs
    show (getStat (upsertStat s.stats a.securityId (applyAction .expiredA))
      a.securityId).totalExpired = _ + _
    rw [getStat_upsert_self]
    simp only [beq_self_eq_true, if_true]
    rfl
  · show (getStat (upsertStat s.stats a.securityId (applyAction .expiredA)) sid).totalExpired
      = _ + _
    rw [getStat_upsert_other _ _ _ _ hs]
    have hb : (a.securityId == sid) = false := by
      rw [beq_eq_false_iff_ne]
      exact fun e => hs e.symm
    rw [hb]
    simp

theorem cleanupLoop_spec (now : Nat) (pending : List Lease) :
    ∀ s : St,
    (∀ a ∈ pending, a ∈ s.leases) →
    ((s.leases.map Lease.lid).Nodup) →
    (∀ a ∈ s.leases, a.lid < s.nextId) →
    ((pending.map Lease.lid).Nodup) →
    ((pending.foldl (fun t b => cleanupItem t b now) s).watchmen = s.watchmen
    ∧ (∀ lid : Nat, (s.leases.find? (fun b => b.lid == lid)).isSome →
        lid ∉ pending.map Lease.lid →
        (pending.foldl (fun t b => cleanupItem t b now) s).leases.find? (fun b => b.lid == lid)
          = s.leases.find? (fun b => b.lid == lid))
    ∧ (∀ a ∈ pending, leaseStatus (pending.foldl (fun t b => cleanupItem t b now) s).leases a.lid
        = some LeaseSt.expired)
    ∧ (∀ sid, (getStat (pending.foldl (fun t b => cleanupItem t b now) s).stats sid).totalExpired
        = (getStat s.stats sid).totalExpired
          + (pending.filter (fun a => a.securityId == sid)).length)) := by
  induction pending with
  | nil =>
    intro s _ _ _ _
    exact ⟨rfl, fun lid _ _ => rfl, fun a ha => absurd ha (List.not_mem_nil a),
      fun sid => by simp⟩
  | cons a rest ih =>
    intro s hsub hnd hlt hpnd
    have haS : a ∈ s.leases := hsub a (List.mem_cons_self a rest)
    have hpnd' : (rest.map Lease.lid).Nodup := by
      rw [List.map_cons, List.nodup_cons] at hpnd
      exact hpnd.2
    have hanotrest : a.lid ∉ rest.map Lease.lid := by
      rw [List.map_cons, List.nodup_cons] at hpnd
      exact hpnd.1
    have hfold : ((a :: rest).foldl (fun t b => cleanupItem t b now) s)
        = rest.foldl (fun t b => cleanupItem t b now) (cleanupItem s a now) := rfl
    have hsub1 : ∀ b ∈ rest, b ∈ (cleanupItem s a now).leases := by
      intro b hb
      have hbne : b.lid ≠ a.lid := by
        intro e
        exact hanotrest (e ▸ lid_mem_of_mem rest b hb)
      exact mem_leases_cleanupItem s a now b (hsub b (List.mem_cons_of_mem a hb)) hbne
    have hndlt := nodup_cleanupItem s a now hnd hlt
    obtain ⟨W, F, S, T⟩ := ih (cleanupItem s a now) hsub1 hndlt.1 hndlt.2 hpnd'
    refine ⟨?_, ?_, ?_, ?_⟩
    · rw [hfold, W, cleanupItem_watchmen]
    · intro lid hsome hnot
      have hne : lid ≠ a.lid := by
        intro e
        exact hnot (by rw [List.map_cons]; exact e ▸ List.mem_cons_self a.lid _)
      have hnotrest : lid ∉ rest.map Lease.lid := by
        intro hmem
        exact hnot (by rw [List.map_cons]; exact List.mem_cons_of_mem _ hmem)
      have hstep := find?_lid_cleanupItem_other s a now lid hne hsome
      have hsome1 : ((cleanupItem s a now).leases.find?
          (fun b => b.lid == lid)).isSome := by
        rw [hstep]; exact hsome
      rw [hfold, F lid hsome1 hnotrest, hstep]
    · intro b hb
      rcases List.mem_cons.mp hb with hba | hbr
      · subst hba
        have hstat1 := leaseStatus_cleanupItem_self s b now haS
        have hsome1 := find?_lid_cleanupItem_self_isSome s b now haS
        rw [hfold]
        unfold leaseStatus
        rw [F b.lid hsome1 hanotrest]
        exact hstat1
      · rw [hfold]
        exact S b hbr
    · intro sid
      have hhead := totalExpired_cleanupItem s a now sid
      rw [hfold, T sid, hhead, List.filter_cons]
      cases hpa : (a.securityId == sid) <;> simp [hpa] <;> omega

end SC

namespace SA

theorem cleanupLoopA_spec (now : Nat) (pending : List Lease) :
    ∀ s : St,
    (∀ a ∈ pending, a ∈ s.leases) →
    ((pending.map Lease.lid).Nodup) →
    ((pending.foldl (fun t b => cleanupItem t b now) s).stats = s.stats
    ∧ (pending.foldl (fun t b => cleanupItem t b now) s).watchmen = s.watchmen
    ∧ (pending.foldl (fun t b => cleanupItem t b now) s).orders = s.orders
    ∧ (∀ lid : Nat, lid ∉ pending.map Lease.lid →
        (pending.foldl (fun t b => cleanupItem t b now) s).leases.find? (fun b => b.lid == lid)
          = s.leases.find? (fun b => b.lid == lid))
    ∧ (∀ a ∈ pending, leaseStatus (pending.foldl (fun t b => cleanupItem t b now) s).leases a.lid
        = some LeaseSt.expired)) := by
  induction pending with
  | nil =>
    intro s _ _
    exact ⟨rfl, rfl, rfl, fun lid _ => rfl, fun a ha => absurd ha (List.not_mem_nil a)⟩
  | cons a rest ih =>
    intro s hsub hpnd
    have haS : a ∈ s.leases := hsub a (List.mem_cons_self a rest)
    have hpnd' : (rest.map Lease.lid).Nodup := by
      rw [List.map_cons, List.nodup_cons] at hpnd
      exact hpnd.2
    have hanotrest : a.lid ∉ rest.map Lease.lid := by
      rw [List.map_cons, List.nodup_cons] at hpnd
      exact hpnd.1
    have hfold : ((a :: rest).foldl (fun t b => cleanupItem t b now) s)
        = rest.foldl (fun t b => cleanupItem t b now) (cleanupItem s a now) := rfl
    have hsub1 : ∀ b ∈ rest, b ∈ (cleanupItem s a now).leases := by
      intro b hb
      have hbne : b.lid ≠ a.lid := by
        intro e
        exact hanotrest (e ▸ lid_mem_of_mem rest b hb)
      exact mem_updateLease_of_ne _ _ _ _ (hsub b (List.mem_cons_of_mem a hb)) hbne
    obtain ⟨ST, W, O, F, S⟩ := ih (cleanupItem s a now) hsub1 hpnd'
    have hstep : ∀ lid : Nat, lid ≠ a.lid →
        (cleanupItem s a now).leases.find? (fun b => b.lid == lid)
          = s.leases.find? (fun b => b.lid == lid) := by
      intro lid hne
      exact find?_lid_updateLease_other _ _ _ _ (fun _ => rfl) hne
    refine ⟨?_, ?_, ?_, ?_, ?_⟩
    · rw [hfold]; exact ST
    · rw [hfold]; exact W
    · rw [hfold]; exact O
    · intro lid hnot
      have hne : lid ≠ a.lid := by
        intro e
        exact hnot (by rw [List.map_cons]; exact e ▸ List.mem_cons_self a.lid _)
      have hnotrest : lid ∉ rest.map Lease.lid := by
        intro hmem
        exact hnot (by rw [List.map_cons]; exact List.mem_cons_of_mem _ hmem)
      rw [hfold, F lid hnotrest, hstep lid hne]
    · intro b hb
      rcases List.mem_cons.mp hb with hba | hbr
      · subst hba
        rw [hfold]
        unfold leaseStatus
        rw [F b.lid hanotrest]
        have hx := leaseStatus_expireLease s.leases b now haS
        unfold leaseStatus at hx
        exact hx
      · rw [hfold]
        exact S b hbr

end SA

/-- Claim C3 (amended).  Under well-formed lease ids (distinct, below the
id counter), a sweep in any variant expires exactly the
`assigned`-status leases older than the 300-second TTL — each selected
lease ends `expired`, unselected leases are untouched — while the
counter effect differs per variant: the first `server.js` variant's
sweep changes no stats, watchmen or orders at all (no reassignment, no
increment); in the full `server.js` variant each worker's `totalExpired`
grows by their number of selected leases, unconditionally; in `part_000`
it grows only by their number of selected leases for which some other
active watchman is available (the increment sits inside `reassignOrder`,
which returns early otherwise). -/
theorem c3_sweep_amended (s : St) (now : Nat)
    (hnd : (s.leases.map Lease.lid).Nodup)
    (hlt : ∀ a ∈ s.leases, a.lid < s.nextId) :
    ((∀ a ∈ s.leases,
        (a.status == LeaseSt.assigned && a.assignedAt < now - 300000) = true →
        leaseStatus (P0.sweep s now).leases a.lid = some LeaseSt.expired)
    ∧ (∀ a ∈ s.leases,
        (a.status == LeaseSt.assigned && a.assignedAt < now - 300000) = false →
        (P0.sweep s now).leases.find? (fun b => b.lid == a.lid)
          = s.leases.find? (fun b => b.lid == a.lid))
    ∧ (∀ sid, (getStat (P0.sweep s now).stats sid).totalExpired
        = (getStat s.stats sid).totalExpired
          + ((s.leases.filter (fun a =>
                a.status == LeaseSt.assigned && a.assignedAt < now - 300000)).filter
              (fun a => a.securityId == sid && hasOther s a.securityId)).length))
    ∧ ((∀ a ∈ s.leases,
        (a.status == LeaseSt.assigned && a.assignedAt < now - 300000) = true →
        leaseStatus (SC.cleanup s now).leases a.lid = some LeaseSt.expired)
    ∧ (∀ a ∈ s.leases,
        (a.status == LeaseSt.assigned && a.assignedAt < now - 300000) = false →
        (SC.cleanup s now).leases.find? (fun b => b.lid == a.lid)
          = s.leases.find? (fun b => b.lid == a.lid))
    ∧ (∀ sid, (getStat (SC.cleanup s now).stats sid).totalExpired
        = (getStat s.stats sid).totalExpired
          + ((s.leases.filter (fun a =>
                a.status == LeaseSt.assigned && a.assignedAt < now - 300000)).filter
              (fun a => a.securityId == sid)).length))
    ∧ ((∀ a ∈ s.leases,
        (a.status == LeaseSt.assigned && a.assignedAt < now - 300000) = true →
        leaseStatus (SA.cleanup s now).leases a.lid = some LeaseSt.expired)
    ∧ (∀ a ∈ s.leases,
        (a.status == LeaseSt.assigned && a.assignedAt < now - 300000) = false →
        (SA.cleanup s now).leases.find? (fun b => b.lid == a.lid)
          = s.leases.find? (fun b => b.lid == a.lid))
    ∧ (SA.cleanup s now).stats = s.stats
    ∧ (SA.cleanup s now).watchmen = s.watchmen
    ∧ (SA.cleanup s now).orders = s.orders) := by
  have hsubP : ∀ a ∈ (s.leases.filter (fun a =>
      a.status == LeaseSt.assigned && a.assignedAt < now - 300000)), a ∈ s.leases :=
    fun a ha => List.mem_of_mem_filter ha
  have hpnd : ((s.leases.filter (fun a =>
      a.status == LeaseSt.assigned && a.assignedAt < now - 300000)).map
        Lease.lid).Nodup :=
    hnd.sublist (List.Sublist.map Lease.lid (List.filter_sublist s.leases))
  obtain ⟨_, FP, SP, TP⟩ := P0.sweepLoop_spec now (s.leases.filter (fun a =>
    a.status == LeaseSt.assigned && a.assignedAt < now - 300000)) s hsubP hnd hlt hpnd
  obtain ⟨_, FC, SSC, TC⟩ := SC.cleanupLoop_spec now (s.leases.filter (fun a =>
    a.status == LeaseSt.assigned && a.assignedAt < now - 300000)) s hsubP hnd hlt hpnd
  obtain ⟨AST, AW, AO, FA, RA⟩ := SA.cleanupLoopA_spec now (s.leases.filter (fun a =>
    a.status == LeaseSt.assigned && a.assignedAt < now - 300000)) s hsubP hpnd
  have hnot : ∀ a ∈ s.leases,
      (a.status == LeaseSt.assigned && a.assignedAt < now - 300000) = false →
      a.lid ∉ (s.leases.filter (fun a =>
        a.status == LeaseSt.assigned && a.assignedAt < now - 300000)).map Lease.lid := by
    intro a ha hfalse hmem
    rcases List.mem_map.mp hmem with ⟨b, hbf, hbl⟩
    have hbm := List.mem_of_mem_filter hbf
    have hpb := List.of_mem_filter hbf
    have hba : b = a := eq_of_mem_lid s.leases hnd a b ha hbm hbl
    rw [hba, hfalse] at hpb
    exact absurd hpb Bool.false_ne_true
  refine ⟨⟨?_, ?_, ?_⟩, ⟨?_, ?_, ?_⟩, ?_, ?_, AST, AW, AO⟩
  · intro a ha hstale
    exact SP a (List.mem_filter.mpr ⟨ha, hstale⟩)
  · intro a ha hfalse
    exact FP a.lid (find?_lid_isSome s.leases a ha) (hnot a ha hfalse)
  · intro sid
    exact TP sid
  · intro a ha hstale
    exact SSC a (List.mem_filter.mpr ⟨ha, hstale⟩)
  · intro a ha hfalse
    exact FC a.lid (find?_lid_isSome s.leases a ha) (hnot a ha hfalse)
  · intro sid
    exact TC sid
  · intro a ha hstale
    exact RA a (List.mem_filter.mpr ⟨ha, hstale⟩)
  · intro a ha hfalse
    exact FA a.lid (hnot a ha hfalse)

/-- Single-active-worker state with one stale assigned lease, for the C3
counterexample. -/
def c3State : St :=
  ⟨[⟨"Alice", "alice", "9876543210", "", "1", true⟩],
   [⟨0, "O1", "1", .assigned, 0, none, none, none, none⟩],
   [("1", ⟨1, 0, 0⟩)], [⟨"O1", "completed"⟩], 1⟩

/-- Claim C3 counterexample: in `part_000`, the sweep expires the stale
lease of a single-worker pool but leaves that worker's `totalExpired` at
0, because the increment sits inside the reassignment procedure, which
returns early when excluding the worker empties the pool. -/
theorem c3_counterexample :
    leaseStatus (P0.sweep c3State 600000).leases 0 = some LeaseSt.expired
    ∧ (getStat (P0.sweep c3State 600000).stats "1").totalExpired = 0 := by
  refine ⟨?_, ?_⟩ <;> decide

/-- The stale lease of the C3 witness state. -/
def c3L : Lease := ⟨0, "O1", "1", .assigned, 0, none, none, none, none⟩

/-- Two-active-worker state with one stale assigned lease, for the C3
witness. -/
def c3State2 : St :=
  ⟨[⟨"Alice", "alice", "9876543210", "", "1", true⟩,
    ⟨"Bob", "bob", "9876543210", "", "2", true⟩],
   [c3L],
   [("1", ⟨1, 0, 0⟩), ("2", ⟨0, 0, 0⟩)], [⟨"O1", "completed"⟩], 1⟩

theorem c3_witness :
    leaseStatus (P0.sweep c3State2 600000).leases c3L.lid = some LeaseSt.expired
    ∧ (getStat (P0.sweep c3State2 600000).stats "1").totalExpired
        = (getStat c3State2.stats "1").totalExpired
          + ((c3State2.leases.filter (fun a =>
                a.status == LeaseSt.assigned && a.assignedAt < 600000 - 300000)).filter
              (fun a => a.securityId == "1" && hasOther c3State2 a.securityId)).length
    ∧ leaseStatus (SC.cleanup c3State2 600000).leases c3L.lid = some LeaseSt.expired
    ∧ (getStat (SC.cleanup c3State2 600000).stats "1").totalExpired
        = (getStat c3State2.stats "1").totalExpired
          + ((c3State2.leases.filter (fun a =>
                a.status == LeaseSt.assigned && a.assignedAt < 600000 - 300000)).filter
              (fun a => a.securityId == "1")).length
    ∧ leaseStatus (SA.cleanup c3State2 600000).leases c3L.lid = some LeaseSt.expired
    ∧ (SA.cleanup c3State2 600000).stats = c3State2.stats
    ∧ (SA.cleanup c3State2 600000).watchmen = c3State2.watchmen
    ∧ (SA.cleanup c3State2 600000).orders = c3State2.orders := by
  obtain ⟨⟨P1, _, P3⟩, ⟨Q1, _, Q3⟩, R1, _, R3, R4, R5⟩ :=
    c3_sweep_amended c3State2 600000 (by decide) (by decide)
  exact ⟨P1 c3L (by decide) (by decide), P3 "1",
    Q1 c3L (by decide) (by decide), Q3 "1",
    R1 c3L (by decide) (by decide), R3, R4, R5⟩
